import Mathlib

/-!
# Score.h : similarity normalisers and `GetRecommendation`

A shallow embedding of `src/src/Score.h`.

Modelling conventions.

* In the metrics and in `GetRecommendation` a C++ `double` is an element of a
  linear ordered field `α` (exact arithmetic: no rounding, no NaN, no
  infinities).  Those definitions are generic in `α`, so they evaluate on `ℚ`
  and can be reasoned about on `ℝ`.
* The range and the monotonicity of `GetEuclideanScore(double)` depend on the
  rounding of `double`; for them the function is read in IEEE 754 binary64
  (`Double`, `roundNE`, `GetEuclideanScoreDouble`).
* A `const double *` row is a `List α`; the matrix `const double **` is a
  `List (List α)`.  The lengths `personNum` and `size` are separate arguments,
  exactly as in the source.  A read outside a list is undefined behaviour in
  C++ and is modelled by the result `none`.
* `std::multimap<double, size_t>` is a key-ascending list of pairs;
  `insert` puts a new pair at the upper bound of the run of equal keys
  (the C++11 rule), `rbegin()`/`++` walk that list backwards.
* The output arrays `recItems` / `recScores` are returned as the list of the
  pairs `(recItems[count], recScores[count])` written for `count = 0, 1, ...`.
  `recItems` is an `int *`; the conversion of the `size_t` item index is taken
  as exact (item indices below `2^31`), so an item is a `Nat`.
* `MathUtility.h` is not part of the sources at hand; the primitives it would
  supply are modelled from the specification and marked as such.
-/

namespace Score

variable {α : Type} [LinearOrderedField α]

/-! ## Normalisers (Score.h lines 25-53) -/

/-- Score.h:25 `GetEuclideanScore(double dist)`: `1 / (1 + dist)`, read in exact
arithmetic.  The reading with the rounding of `double` is
`GetEuclideanScoreDouble`. -/
def GetEuclideanScore (dist : α) : α := 1 / (1 + dist)

/-- Score.h:35 `GetPearsonScore(double coef)`. -/
def GetPearsonScore (coef : α) : α := coef

/-- Score.h:45 `GetTanimotoScore(double coef)`. -/
def GetTanimotoScore (coef : α) : α := coef

/-- Score.h:50 `GetCosineScore(double cos)`. -/
def GetCosineScore (cos : α) : α := cos

/-! ## Primitives of `MathUtility.h` -/

/-- Modelled from the spec: `GetEuclideanDistance` of `MathUtility.h` is missing.
The spec calls it the Euclidean distance between the two vectors: the square
root of the sum of the squared coordinate differences.  The square root is an
argument so that the definition stays executable; on `ℝ` it is `Real.sqrt`. -/
def GetEuclideanDistance (sqrt : α → α) (a b : List α) : α :=
  sqrt ((List.zipWith (fun x y => (x - y) * (x - y)) a b).sum)

/-- Modelled from the spec: `GetWeightedMead` of `MathUtility.h` is missing.
The spec gives `sum(critic[idx] * similarity[idx]) / sum(similarity[idx])`, and
for a zero denominator the deterministic fallback `0`.  The first range holds
the values, the second the weights (the argument order of the call at
Score.h:135). -/
def GetWeightedMead (values weights : List α) : α :=
  if weights.sum = 0 then 0
  else (List.zipWith (fun c r => c * r) values weights).sum / weights.sum

/-! ## Vector metrics (Score.h lines 55-85)

A C++ overload cannot keep its name in Lean, so the three-argument versions
carry the suffix `Vec`.  The pointer pair `(p, p + size)` is `p.take size`. -/

/-- Score.h:55 `GetEuclideanScore(const double*, const double*, size_t)`. -/
def GetEuclideanScoreVec (distance : List α → List α → α)
    (myCritics hisCritics : List α) (size : Nat) : α :=
  let dist := distance (myCritics.take size) (hisCritics.take size)
  GetEuclideanScore dist

/-- Score.h:63 `GetPearsonScore(const double*, const double*, size_t)`. -/
def GetPearsonScoreVec (correlation : List α → List α → α)
    (myCritics hisCritics : List α) (size : Nat) : α :=
  let coef := correlation (myCritics.take size) (hisCritics.take size)
  GetPearsonScore coef

/-- Score.h:71 `GetTanimotoScore(const double*, const double*, size_t)`. -/
def GetTanimotoScoreVec (tanimoto : List α → List α → α)
    (myCritics hisCritics : List α) (size : Nat) : α :=
  let coef := tanimoto (myCritics.take size) (hisCritics.take size)
  GetTanimotoScore coef

/-- Score.h:79 `GetCosineScore(const double*, const double*, size_t)`. -/
def GetCosineScoreVec (cosine : List α → List α → α)
    (myCritics hisCritics : List α) (size : Nat) : α :=
  let cos := cosine (myCritics.take size) (hisCritics.take size)
  GetCosineScore cos

/-- Score.h:87 `typedef double (*ScoreFunc)(const double *, const double *, size_t)`. -/
abbrev ScoreFunc (α : Type) : Type := List α → List α → Nat → α

/-! ## `GetRecommendation` (Score.h lines 89-151) -/

/-- A counted `for` loop whose body may leave defined behaviour: the bodies run
for the indices of the list in order, and the first `none` ends the run. -/
def forEach {β : Type} (body : Nat → Option β) : List Nat → Option (List β)
  | [] => some []
  | i :: is =>
    match body i with
    | none => none
    | some b =>
      match forEach body is with
      | none => none
      | some bs => some (b :: bs)

/-- Score.h:105-109, the body of the similarity loop: the entry `allRels[idx]`.
The target keeps the `0` of the `memset`; for anybody else the two row
pointers are read and handed to `scorer`. -/
def relOf (allCritics : List (List α)) (size myIndex : Nat) (scorer : ScoreFunc α)
    (idx : Nat) : Option α :=
  if idx = myIndex then some 0
  else
    match allCritics[myIndex]?, allCritics[idx]? with
    | some mine, some his => some (scorer mine his size)
    | _, _ => none

/-- Score.h:100-110, the similarity pass: the array `allRels`. -/
def computeAllRels (allCritics : List (List α)) (personNum size myIndex : Nat)
    (scorer : ScoreFunc α) : Option (List α) :=
  forEach (relOf allCritics size myIndex scorer) (List.range personNum)

/-- Read of `allCritics[personIdx][itemIdx]`. -/
def cell (allCritics : List (List α)) (personIdx itemIdx : Nat) : Option α :=
  match allCritics[personIdx]? with
  | none => none
  | some row => row[itemIdx]?

/-- Score.h:122-131, the body of the inner loop: the pair
`(rels[personIdx], critics[personIdx])` for one item. -/
def maskOf (allCritics : List (List α)) (allRels : List α) (itemIdx personIdx : Nat) :
    Option (α × α) :=
  match cell allCritics personIdx itemIdx with
  | none => none
  | some v =>
    if v ≤ 0 then some (0, 0)
    else
      match allRels[personIdx]? with
      | none => none
      | some r => some (r, v)

/-- Score.h:117-135, the body of the item loop: the `score` of one item. -/
def itemScore (allCritics : List (List α)) (personNum : Nat) (allRels : List α)
    (itemIdx : Nat) : Option α :=
  match forEach (maskOf allCritics allRels itemIdx) (List.range personNum) with
  | none => none
  | some masked =>
    let rels := masked.map Prod.fst
    let critics := masked.map Prod.snd
    some (GetWeightedMead critics rels)

/-- The member `insert` of `std::multimap<double, size_t>`: the new pair goes
behind every pair whose key is not greater than its own. -/
def multimapInsert (kv : α × Nat) : List (α × Nat) → List (α × Nat)
  | [] => [kv]
  | x :: xs => if kv.1 < x.1 then kv :: x :: xs else x :: multimapInsert kv xs

/-- Score.h:114-137, the item loop: `mapScores` after the items of the list
have been scored and inserted, starting from the map `acc`. -/
def fillScores (allCritics : List (List α)) (personNum : Nat) (allRels : List α) :
    List Nat → List (α × Nat) → Option (List (α × Nat))
  | [], acc => some acc
  | itemIdx :: rest, acc =>
    match itemScore allCritics personNum allRels itemIdx with
    | none => none
    | some score =>
      fillScores allCritics personNum allRels rest (multimapInsert (score, itemIdx) acc)

/-- Score.h:140-146, the output loop: `recNum` steps of a reverse iterator,
given the map in reverse order.  Dereferencing `rend()` is undefined. -/
def readTop : Nat → List (α × Nat) → Option (List (Nat × α))
  | 0, _ => some []
  | _ + 1, [] => none
  | n + 1, kv :: rest =>
    match readTop n rest with
    | none => none
    | some out => some ((kv.2, kv.1) :: out)

/-- Score.h:89 `GetRecommendation`.  The result is the list of the pairs
`(recItems[count], recScores[count])`, or `none` where the C++ execution
reads outside the matrix or past the end of the map. -/
def GetRecommendation (allCritics : List (List α)) (personNum size myIndex : Nat)
    (scorer : ScoreFunc α) (recNum : Nat) : Option (List (Nat × α)) :=
  match computeAllRels allCritics personNum size myIndex scorer with
  | none => none
  | some allRels =>
    match fillScores allCritics personNum allRels (List.range size) [] with
    | none => none
    | some mapScores => readTop recNum mapScores.reverse

/-! ## Closed forms used in the statements -/

/-- The rating `allCritics[personIdx][itemIdx]`, with `0` outside the matrix. -/
def rating (allCritics : List (List α)) (personIdx itemIdx : Nat) : α :=
  (allCritics.getD personIdx []).getD itemIdx 0

/-- The similarity vector as the spec words it: `similarity[targetIndex] = 0`,
and `similarity[idx] = metric(matrix[targetIndex], matrix[idx])` otherwise. -/
def specSimilarity (allCritics : List (List α)) (size myIndex : Nat) (scorer : ScoreFunc α)
    (idx : Nat) : α :=
  if idx = myIndex then 0
  else scorer (allCritics.getD myIndex []) (allCritics.getD idx []) size

/-- The subjects that rated item `j`: those `idx < personNum` with
`matrix[idx][j] > 0`, in ascending order. -/
def raters (allCritics : List (List α)) (personNum itemIdx : Nat) : List Nat :=
  (List.range personNum).filter (fun idx => 0 < rating allCritics idx itemIdx)

/-- The weighted score as the spec words it:
`sum(matrix[idx][j] * similarity[idx]) / sum(similarity[idx])` over the subjects
that rated `j`.  Division by `0` is `0` in a Lean field, which is the spec's
fallback for a zero denominator. -/
def specScore (allCritics : List (List α)) (personNum size myIndex : Nat)
    (scorer : ScoreFunc α) (itemIdx : Nat) : α :=
  ((raters allCritics personNum itemIdx).map
      (fun idx => rating allCritics idx itemIdx
        * specSimilarity allCritics size myIndex scorer idx)).sum
    / ((raters allCritics personNum itemIdx).map
        (fun idx => specSimilarity allCritics size myIndex scorer idx)).sum

/-- The zero-masked rating vector of item `j` (the array `critics`). -/
def maskedCritics (allCritics : List (List α)) (personNum itemIdx : Nat) : List α :=
  (List.range personNum).map
    (fun idx => if rating allCritics idx itemIdx ≤ 0 then 0 else rating allCritics idx itemIdx)

/-- The zero-masked similarity vector of item `j` (the array `rels`). -/
def maskedRels (allCritics : List (List α)) (personNum size myIndex : Nat)
    (scorer : ScoreFunc α) (itemIdx : Nat) : List α :=
  (List.range personNum).map
    (fun idx => if rating allCritics idx itemIdx ≤ 0 then 0
      else specSimilarity allCritics size myIndex scorer idx)

/-- The score of item `j` as the loops compute it on a well-formed matrix. -/
def scoreOf (allCritics : List (List α)) (personNum size myIndex : Nat)
    (scorer : ScoreFunc α) (j : Nat) : α :=
  GetWeightedMead (maskedCritics allCritics personNum j)
    (maskedRels allCritics personNum size myIndex scorer j)

/-- The map after the items of `l` were inserted with the scores `sc`. -/
def filled (sc : Nat → α) (l : List Nat) (acc : List (α × Nat)) : List (α × Nat) :=
  l.foldl (fun m j => multimapInsert (sc j, j) m) acc

/-- The order of the map entries: by key, and by insertion rank within a key. -/
def entryLt (a b : α × Nat) : Prop := a.1 < b.1 ∨ (a.1 = b.1 ∧ a.2 < b.2)

/-- The order of the output pairs `(item, score)`: the higher score first, and
for equal scores the item inserted later, that is the higher index, first. -/
def outBefore (p q : Nat × α) : Prop := q.2 < p.2 ∨ (q.2 = p.2 ∧ q.1 < p.1)

/-! ## The normaliser in `double` arithmetic

Where rounding decides a statement about `GetEuclideanScore(double)`, the
function is read in IEEE 754 binary64 with every operation rounded to nearest,
ties to even.  Signed zeros are not distinguished. -/

/-- A value of the C++ type `double`: a finite number, an infinity, or a NaN.
The finite values that arithmetic produces are the binary64 numbers. -/
inductive Double where
  | finite (q : ℚ) : Double
  | posInf : Double
  | negInf : Double
  | nan : Double

/-- Rounding to the nearest integer, a tie to the even neighbour. -/
def roundHalfEven (m : ℚ) : ℤ :=
  if m - ⌊m⌋ < 1 / 2 then ⌊m⌋
  else if 1 / 2 < m - ⌊m⌋ then ⌊m⌋ + 1
  else if ⌊m⌋ % 2 = 0 then ⌊m⌋ else ⌊m⌋ + 1

/-- The exponent of the unit in the last place of a positive `q`: 52 below the
binary exponent of `q`, and `-1074` throughout the subnormal range. -/
def quantumExp (q : ℚ) : ℤ := max (Int.log 2 q) (-1022) - 52

/-- A positive `q` rounded to 53 significant bits, with no bound on the
exponent from above. -/
def roundMag (q : ℚ) : ℚ := (roundHalfEven (q / 2 ^ quantumExp q) : ℚ) * 2 ^ quantumExp q

/-- The double nearest to the exact result `q`, ties to even; a rounded
magnitude of `2^1024` or more overflows to an infinity. -/
def roundNE (q : ℚ) : Double :=
  if 0 ≤ q then
    if roundMag q < 2 ^ 1024 then Double.finite (roundMag q) else Double.posInf
  else
    if roundMag (-q) < 2 ^ 1024 then Double.finite (-roundMag (-q)) else Double.negInf

/-- The sum of two doubles. -/
def Double.add : Double → Double → Double
  | Double.finite a, Double.finite b => roundNE (a + b)
  | Double.nan, _ => Double.nan
  | _, Double.nan => Double.nan
  | Double.posInf, Double.negInf => Double.nan
  | Double.negInf, Double.posInf => Double.nan
  | Double.posInf, _ => Double.posInf
  | _, Double.posInf => Double.posInf
  | Double.negInf, _ => Double.negInf
  | _, Double.negInf => Double.negInf

/-- The quotient of two doubles. -/
def Double.div : Double → Double → Double
  | Double.finite a, Double.finite b =>
    if b = 0 then
      if a = 0 then Double.nan else if 0 < a then Double.posInf else Double.negInf
    else roundNE (a / b)
  | Double.nan, _ => Double.nan
  | _, Double.nan => Double.nan
  | Double.finite _, _ => Double.finite 0
  | Double.posInf, Double.finite b => if 0 ≤ b then Double.posInf else Double.negInf
  | Double.negInf, Double.finite b => if 0 ≤ b then Double.negInf else Double.posInf
  | _, _ => Double.nan

/-- Score.h:25 `GetEuclideanScore(double dist)`, `return (1 / (1 + dist));`, in
`double` arithmetic: the literal `1` is the double `1.0`, the sum is rounded,
and so is the quotient. -/
def GetEuclideanScoreDouble (dist : Double) : Double :=
  Double.div (Double.finite 1) (Double.add (Double.finite 1) dist)

/-- The largest finite double, `DBL_MAX = (2^53 - 1) * 2^971`. -/
def maxFinite : ℚ := (2 ^ 53 - 1) * 2 ^ 971

/-! ## How a call ends -/

/-- The ways a call can end: it returns with its outputs written, it is rejected
with the `InvalidArgument` of the spec's error taxonomy, or the execution leaves
defined behaviour (a read outside an array or past the end of the map). -/
inductive Outcome (β : Type) where
  | returned (out : β) : Outcome β
  | invalidArgument : Outcome β
  | undefinedBehaviour : Outcome β

/-- The end of a call of `GetRecommendation`, Score.h:89-151: a `void` function
without a `throw` and without a check of its arguments.  It returns after the
output loop, or one of its reads is outside the data; nothing in it rejects a
call. -/
def outcomeOf {β : Type} : Option β → Outcome β
  | some out => Outcome.returned out
  | none => Outcome.undefinedBehaviour

/-! ## Concrete inputs -/

/-- The matrix of the spec's concrete scenario: 3 subjects, 3 items. -/
def scenario : List (List ℚ) := [[5, 3, 0], [4, 0, 2], [5, 4, 1]]

/-- The scenario with another row for subject 0. -/
def scenarioOtherTarget : List (List ℚ) := [[1, 9, 7], [4, 0, 2], [5, 4, 1]]

/-- A matrix of 3 subjects and 2 items whose item 1 nobody rated. -/
def unratedItem : List (List ℚ) := [[5, 0], [4, 0], [3, 0]]

/-- A metric that rates every pair of rows `1`; on identical rows this is the
value of the Euclidean-derived metric. -/
def constMetric : ScoreFunc ℚ := fun _ _ _ => 1

/-! ## Lemmas on the loops -/

set_option linter.unusedSectionVars false

theorem forEach_eq_map {β : Type} (body : Nat → Option β) (f : Nat → β) :
    ∀ l : List Nat, (∀ i ∈ l, body i = some (f i)) → forEach body l = some (l.map f)
  | [], _ => rfl
  | i :: is, h => by
    have hi : body i = some (f i) := h i (List.mem_cons_self _ _)
    have hr : forEach body is = some (is.map f) :=
      forEach_eq_map body f is (fun k hk => h k (List.mem_cons_of_mem _ hk))
    simp [forEach, hi, hr]

theorem cell_eq_rating (allCritics : List (List α)) (size p j : Nat)
    (hrow : ∀ row ∈ allCritics, row.length = size) (hp : p < allCritics.length)
    (hj : j < size) : cell allCritics p j = some (rating allCritics p j) := by
  have hmem : allCritics[p] ∈ allCritics := List.getElem_mem hp
  have hlen : j < (allCritics[p]).length := by rw [hrow _ hmem]; exact hj
  simp [cell, rating, List.getD, List.getElem?_eq_getElem hp, List.getElem?_eq_getElem hlen]

theorem relOf_eq (allCritics : List (List α)) (size myIndex : Nat) (scorer : ScoreFunc α)
    (idx : Nat) (hmy : myIndex < allCritics.length) (hidx : idx < allCritics.length) :
    relOf allCritics size myIndex scorer idx
      = some (specSimilarity allCritics size myIndex scorer idx) := by
  unfold relOf specSimilarity
  by_cases h : idx = myIndex
  · simp [h]
  · simp [h, List.getD, List.getElem?_eq_getElem hmy, List.getElem?_eq_getElem hidx]

theorem computeAllRels_eq (allCritics : List (List α)) (personNum size myIndex : Nat)
    (scorer : ScoreFunc α) (hlen : allCritics.length = personNum) (hmy : myIndex < personNum) :
    computeAllRels allCritics personNum size myIndex scorer
      = some ((List.range personNum).map (specSimilarity allCritics size myIndex scorer)) := by
  unfold computeAllRels
  apply forEach_eq_map
  intro i hi
  rw [List.mem_range] at hi
  exact relOf_eq allCritics size myIndex scorer i (hlen ▸ hmy) (hlen ▸ hi)

theorem maskOf_eq (allCritics : List (List α)) (personNum size myIndex : Nat)
    (scorer : ScoreFunc α) (j p : Nat) (hlen : allCritics.length = personNum)
    (hrow : ∀ row ∈ allCritics, row.length = size) (hj : j < size) (hp : p < personNum) :
    maskOf allCritics ((List.range personNum).map (specSimilarity allCritics size myIndex scorer))
        j p
      = some (if rating allCritics p j ≤ 0 then 0
              else specSimilarity allCritics size myIndex scorer p,
              if rating allCritics p j ≤ 0 then 0 else rating allCritics p j) := by
  unfold maskOf
  rw [cell_eq_rating allCritics size p j hrow (hlen ▸ hp) hj]
  by_cases h : rating allCritics p j ≤ 0
  · simp [h]
  · simp [h, hp]

theorem itemScore_eq (allCritics : List (List α)) (personNum size myIndex : Nat)
    (scorer : ScoreFunc α) (j : Nat) (hlen : allCritics.length = personNum)
    (hrow : ∀ row ∈ allCritics, row.length = size) (hj : j < size) :
    itemScore allCritics personNum
        ((List.range personNum).map (specSimilarity allCritics size myIndex scorer)) j
      = some (GetWeightedMead (maskedCritics allCritics personNum j)
          (maskedRels allCritics personNum size myIndex scorer j)) := by
  unfold itemScore
  rw [forEach_eq_map _ _ _ (fun p hp =>
    maskOf_eq allCritics personNum size myIndex scorer j p hlen hrow hj (List.mem_range.mp hp))]
  simp [maskedCritics, maskedRels, Function.comp_def]

/-! ## Lemmas on the map and the output loop -/

theorem fillScores_eq (allCritics : List (List α)) (personNum : Nat) (allRels : List α)
    (sc : Nat → α) :
    ∀ (l : List Nat) (acc : List (α × Nat)),
      (∀ j ∈ l, itemScore allCritics personNum allRels j = some (sc j)) →
      fillScores allCritics personNum allRels l acc = some (filled sc l acc)
  | [], _, _ => rfl
  | j :: rest, acc, h => by
    have hj := h j (List.mem_cons_self _ _)
    have hr := fillScores_eq allCritics personNum allRels sc rest
      (multimapInsert (sc j, j) acc) (fun k hk => h k (List.mem_cons_of_mem _ hk))
    simp [fillScores, hj, hr, filled]

theorem multimapInsert_perm (kv : α × Nat) :
    ∀ m : List (α × Nat), (multimapInsert kv m).Perm (kv :: m)
  | [] => List.Perm.refl _
  | x :: xs => by
    unfold multimapInsert
    split_ifs with h
    · exact List.Perm.refl _
    · exact ((multimapInsert_perm kv xs).cons x).trans (List.Perm.swap kv x xs)

theorem multimapInsert_sorted (kv : α × Nat) :
    ∀ m : List (α × Nat), m.Pairwise entryLt → (∀ x ∈ m, x.2 < kv.2) →
      (multimapInsert kv m).Pairwise entryLt
  | [], _, _ => by simp [multimapInsert]
  | x :: xs, hs, hlt => by
    rw [List.pairwise_cons] at hs
    unfold multimapInsert
    split_ifs with h
    · refine List.pairwise_cons.mpr ⟨?_, List.pairwise_cons.mpr hs⟩
      intro y hy
      rcases List.mem_cons.mp hy with rfl | hy
      · exact Or.inl h
      · rcases hs.1 y hy with h1 | h1
        · exact Or.inl (lt_trans h h1)
        · exact Or.inl (h1.1 ▸ h)
    · refine List.pairwise_cons.mpr ⟨?_, multimapInsert_sorted kv xs hs.2
        (fun y hy => hlt y (List.mem_cons_of_mem _ hy))⟩
      intro y hy
      rcases List.mem_cons.mp ((multimapInsert_perm kv xs).mem_iff.mp hy) with rfl | hy
      · rcases lt_or_eq_of_le (not_lt.mp h) with h1 | h1
        · exact Or.inl h1
        · exact Or.inr ⟨h1, hlt x (List.mem_cons_self _ _)⟩
      · exact hs.1 y hy

theorem filled_range_succ (sc : Nat → α) (n : Nat) :
    filled sc (List.range (n + 1)) [] = multimapInsert (sc n, n) (filled sc (List.range n) []) := by
  simp [filled, List.range_succ, List.foldl_append]

theorem filled_perm (sc : Nat → α) :
    ∀ n : Nat, (filled sc (List.range n) []).Perm ((List.range n).map (fun j => (sc j, j)))
  | 0 => by simp [filled]
  | n + 1 => by
    rw [filled_range_succ, List.range_succ, List.map_append]
    refine (multimapInsert_perm _ _).trans ?_
    refine ((filled_perm sc n).cons _).trans ?_
    simpa using (List.perm_append_singleton (sc n, n)
      ((List.range n).map (fun j => (sc j, j)))).symm

theorem filled_sorted (sc : Nat → α) :
    ∀ n : Nat, (filled sc (List.range n) []).Pairwise entryLt
  | 0 => by simp [filled]
  | n + 1 => by
    rw [filled_range_succ]
    refine multimapInsert_sorted _ _ (filled_sorted sc n) ?_
    intro x hx
    have hx2 := (filled_perm sc n).mem_iff.mp hx
    simp only [List.mem_map, List.mem_range] at hx2
    obtain ⟨j, hj, rfl⟩ := hx2
    exact hj

theorem filled_length (sc : Nat → α) (n : Nat) : (filled sc (List.range n) []).length = n := by
  simpa using (filled_perm sc n).length_eq

theorem mem_filled (sc : Nat → α) (n : Nat) (x : α × Nat) :
    x ∈ filled sc (List.range n) [] ↔ x.2 < n ∧ x.1 = sc x.2 := by
  rw [(filled_perm sc n).mem_iff]
  simp only [List.mem_map, List.mem_range]
  constructor
  · rintro ⟨j, hj, rfl⟩
    exact ⟨hj, rfl⟩
  · rintro ⟨h1, h2⟩
    exact ⟨x.2, h1, by rw [← h2]⟩

theorem readTop_eq :
    ∀ (n : Nat) (l : List (α × Nat)), n ≤ l.length →
      readTop n l = some ((l.take n).map (fun kv => (kv.2, kv.1)))
  | 0, _, _ => by simp [readTop]
  | n + 1, [], h => by simp at h
  | n + 1, kv :: rest, h => by
    have hr := readTop_eq n rest (Nat.le_of_succ_le_succ h)
    simp [readTop, hr]

/-- The whole run on a well-formed input, in closed form. -/
theorem GetRecommendation_eq (allCritics : List (List α)) (personNum size myIndex : Nat)
    (scorer : ScoreFunc α) (recNum : Nat) (hlen : allCritics.length = personNum)
    (hrow : ∀ row ∈ allCritics, row.length = size) (hmy : myIndex < personNum)
    (hrec : recNum ≤ size) :
    GetRecommendation allCritics personNum size myIndex scorer recNum
      = some ((((filled (scoreOf allCritics personNum size myIndex scorer)
          (List.range size) []).reverse).take recNum).map (fun kv => (kv.2, kv.1))) := by
  unfold GetRecommendation
  rw [computeAllRels_eq allCritics personNum size myIndex scorer hlen hmy]
  simp only []
  rw [fillScores_eq allCritics personNum _ (scoreOf allCritics personNum size myIndex scorer)
    (List.range size) [] (fun j hj =>
      itemScore_eq allCritics personNum size myIndex scorer j hlen hrow (List.mem_range.mp hj))]
  simp only []
  exact readTop_eq recNum _ (by rw [List.length_reverse, filled_length]; exact hrec)

theorem filled_items_perm (sc : Nat → α) (n : Nat) :
    ((filled sc (List.range n) []).map Prod.snd).Perm (List.range n) := by
  have h := (filled_perm sc n).map Prod.snd
  simpa [Function.comp_def] using h

/-- Everything the claims need about the output of a well-formed call. -/
theorem GetRecommendation_facts (allCritics : List (List α)) (personNum size myIndex : Nat)
    (scorer : ScoreFunc α) (recNum : Nat) (hlen : allCritics.length = personNum)
    (hrow : ∀ row ∈ allCritics, row.length = size) (hmy : myIndex < personNum)
    (hrec : recNum ≤ size) :
    ∃ out, GetRecommendation allCritics personNum size myIndex scorer recNum = some out
      ∧ out.length = recNum
      ∧ out.Pairwise outBefore
      ∧ (∀ p ∈ out, p.1 < size ∧ p.2 = scoreOf allCritics personNum size myIndex scorer p.1)
      ∧ (∀ j, j < size → j ∉ out.map Prod.fst →
          ∀ p ∈ out, scoreOf allCritics personNum size myIndex scorer j ≤ p.2)
      ∧ (out.map Prod.fst).Nodup
      ∧ (recNum = size → (out.map Prod.fst).Perm (List.range size)) := by
  refine ⟨_, GetRecommendation_eq allCritics personNum size myIndex scorer recNum hlen hrow hmy
    hrec, ?_, ?_, ?_, ?_, ?_, ?_⟩
  · rw [List.length_map, List.length_take, List.length_reverse, filled_length]
    exact Nat.min_eq_left hrec
  · rw [List.pairwise_map]
    refine List.Pairwise.sublist (List.take_sublist _ _) ?_
    rw [List.pairwise_reverse]
    exact (filled_sorted _ size).imp (fun h => h)
  · intro p hp
    obtain ⟨kv, hkv, rfl⟩ := List.mem_map.mp hp
    have h1 := List.mem_reverse.mp (List.mem_of_mem_take hkv)
    exact (mem_filled _ size kv).mp h1
  · intro j hj hnot p hp
    obtain ⟨kv, hkv, rfl⟩ := List.mem_map.mp hp
    have hs : ((filled (scoreOf allCritics personNum size myIndex scorer)
        (List.range size) []).reverse).Pairwise (fun a b => entryLt b a) := by
      rw [List.pairwise_reverse]
      exact (filled_sorted _ size).imp (fun h => h)
    rw [← List.take_append_drop recNum (filled (scoreOf allCritics personNum size myIndex scorer)
        (List.range size) []).reverse, List.pairwise_append] at hs
    have hin : (scoreOf allCritics personNum size myIndex scorer j, j)
        ∈ (filled (scoreOf allCritics personNum size myIndex scorer)
          (List.range size) []).reverse :=
      List.mem_reverse.mpr ((mem_filled _ size _).mpr ⟨hj, rfl⟩)
    rw [← List.take_append_drop recNum (filled (scoreOf allCritics personNum size myIndex scorer)
        (List.range size) []).reverse, List.mem_append] at hin
    rcases hin with hin | hin
    · exfalso
      apply hnot
      rw [List.map_map]
      exact List.mem_map.mpr ⟨_, hin, rfl⟩
    · rcases hs.2.2 kv hkv _ hin with h | h
      · exact le_of_lt h
      · exact le_of_eq h.1
  · rw [List.map_map]
    have hsub : (((filled (scoreOf allCritics personNum size myIndex scorer)
        (List.range size) []).reverse.take recNum).map (Prod.fst ∘ fun kv => (kv.2, kv.1))).Sublist
        (((filled (scoreOf allCritics personNum size myIndex scorer)
        (List.range size) []).reverse).map Prod.snd) :=
      (List.take_sublist _ _).map _
    refine List.Nodup.sublist hsub ?_
    rw [List.map_reverse, List.nodup_reverse]
    exact (filled_items_perm _ size).nodup_iff.mpr (List.nodup_range size)
  · intro h
    rw [List.map_map, List.take_of_length_le (by rw [List.length_reverse, filled_length, h])]
    have : (Prod.fst ∘ fun kv : α × Nat => (kv.2, kv.1)) = Prod.snd := rfl
    rw [this, List.map_reverse]
    exact (List.reverse_perm _).trans (filled_items_perm _ size)

theorem adjacent_of_pairwise {β : Type} {R : β → β → Prop} {l : List β} (h : l.Pairwise R)
    (k : Nat) (a b : β) (ha : l[k]? = some a) (hb : l[k + 1]? = some b) : R a b := by
  obtain ⟨hk, rfl⟩ := List.getElem?_eq_some.mp ha
  obtain ⟨hk1, rfl⟩ := List.getElem?_eq_some.mp hb
  exact List.pairwise_iff_getElem.mp h k (k + 1) hk hk1 (Nat.lt_succ_self k)

theorem zipWith_mul_map (f g : Nat → α) :
    ∀ l : List Nat, List.zipWith (fun c r => c * r) (l.map f) (l.map g)
      = l.map (fun i => f i * g i)
  | [] => rfl
  | i :: is => by simp [zipWith_mul_map f g is]

theorem GetWeightedMead_map (f g : Nat → α) (l : List Nat) :
    GetWeightedMead (l.map f) (l.map g)
      = (l.map (fun i => f i * g i)).sum / (l.map g).sum := by
  unfold GetWeightedMead
  rw [zipWith_mul_map]
  split_ifs with h
  · rw [h, div_zero]
  · rfl

theorem sum_map_filter (p : Nat → Prop) [DecidablePred p] (f : Nat → α) :
    ∀ l : List Nat, ((l.filter (fun i => decide (p i))).map f).sum
      = (l.map (fun i => if p i then f i else 0)).sum
  | [] => rfl
  | i :: is => by
    by_cases h : p i
    · simp [List.filter_cons, h, sum_map_filter p f is]
    · simp [List.filter_cons, h, sum_map_filter p f is]

theorem scoreOf_eq_specScore (allCritics : List (List α)) (personNum size myIndex : Nat)
    (scorer : ScoreFunc α) (j : Nat) :
    scoreOf allCritics personNum size myIndex scorer j
      = specScore allCritics personNum size myIndex scorer j := by
  unfold scoreOf specScore maskedCritics maskedRels raters
  rw [GetWeightedMead_map, sum_map_filter, sum_map_filter]
  congr 1
  · congr 1
    apply List.map_congr_left
    intro idx _
    by_cases h : rating allCritics idx j ≤ 0
    · simp [h, not_lt.mpr h]
    · simp [h, not_le.mp h]
  · congr 1
    apply List.map_congr_left
    intro idx _
    by_cases h : rating allCritics idx j ≤ 0
    · simp [h, not_lt.mpr h]
    · simp [h, not_le.mp h]

theorem scoreOf_congr_target (m₁ m₂ : List (List α)) (personNum size myIndex : Nat)
    (scorer : ScoreFunc α) (hsame : ∀ idx, idx ≠ myIndex → m₁[idx]? = m₂[idx]?)
    (hscorer : ∀ a b c n, scorer a c n = scorer b c n) (j : Nat) :
    scoreOf m₁ personNum size myIndex scorer j = scoreOf m₂ personNum size myIndex scorer j := by
  have hrowEq : ∀ idx, idx ≠ myIndex → m₁.getD idx [] = m₂.getD idx [] := by
    intro idx h
    rw [List.getD_eq_getElem?_getD, List.getD_eq_getElem?_getD, hsame idx h]
  have hrels : ∀ idx,
      (if rating m₁ idx j ≤ 0 then 0 else specSimilarity m₁ size myIndex scorer idx)
        = (if rating m₂ idx j ≤ 0 then 0 else specSimilarity m₂ size myIndex scorer idx) := by
    intro idx
    by_cases h : idx = myIndex
    · simp [specSimilarity, h]
    · have hr : rating m₁ idx j = rating m₂ idx j := by
        unfold rating
        rw [hrowEq idx h]
      have hs : specSimilarity m₁ size myIndex scorer idx
          = specSimilarity m₂ size myIndex scorer idx := by
        unfold specSimilarity
        rw [if_neg h, if_neg h, hrowEq idx h]
        exact hscorer _ _ _ _
      rw [hr, hs]
  unfold scoreOf maskedCritics maskedRels
  rw [GetWeightedMead_map, GetWeightedMead_map]
  congr 1
  · congr 1
    apply List.map_congr_left
    intro idx _
    by_cases h : idx = myIndex
    · simp [specSimilarity, h]
    · have hr : rating m₁ idx j = rating m₂ idx j := by
        unfold rating
        rw [hrowEq idx h]
      rw [hrels idx, hr]
  · congr 1
    apply List.map_congr_left
    intro idx _
    exact hrels idx

theorem zipWith_sq_diff_self :
    ∀ v : List α, (List.zipWith (fun x y => (x - y) * (x - y)) v v).sum = 0
  | [] => rfl
  | x :: xs => by simp [zipWith_sq_diff_self xs]

theorem zipWith_sq_diff_nonneg :
    ∀ a b : List α, 0 ≤ (List.zipWith (fun x y => (x - y) * (x - y)) a b).sum
  | [], _ => by simp
  | _ :: _, [] => by simp
  | x :: xs, y :: ys => by
    simpa using add_nonneg (mul_self_nonneg (x - y)) (zipWith_sq_diff_nonneg xs ys)

theorem GetEuclideanScore_le_one (dist : α) (h : 0 ≤ dist) : GetEuclideanScore dist ≤ 1 := by
  have hpos : (0 : α) < 1 + dist := by linarith
  unfold GetEuclideanScore
  rw [div_le_one hpos]
  linarith

/-! ## The claims -/

/-- C1: on a matrix of `personNum` rows of length `size`, a valid target index,
any metric and `recNum ≤ size`, `GetRecommendation` writes exactly `recNum`
pairs, and the written scores never increase: `recScores[k] ≥ recScores[k+1]`
for every `k + 1 < recNum`. -/
theorem C1_length_and_descending (allCritics : List (List α)) (personNum size myIndex : Nat)
    (scorer : ScoreFunc α) (recNum : Nat) (hlen : allCritics.length = personNum)
    (hrow : ∀ row ∈ allCritics, row.length = size) (hmy : myIndex < personNum)
    (hrec : recNum ≤ size) :
    ∃ out, GetRecommendation allCritics personNum size myIndex scorer recNum = some out
      ∧ out.length = recNum
      ∧ ∀ k p q, out[k]? = some p → out[k + 1]? = some q → p.2 ≥ q.2 := by
  obtain ⟨out, hout, hl, hpw, -⟩ := GetRecommendation_facts allCritics personNum size myIndex
    scorer recNum hlen hrow hmy hrec
  refine ⟨out, hout, hl, ?_⟩
  intro k p q hp hq
  rcases adjacent_of_pairwise hpw k p q hp hq with h | h
  · exact le_of_lt h
  · exact le_of_eq h.1

/-- C2: for `recNum ≤ size` the returned pairs are the top `recNum` of the
per-item scores: exactly `recNum` pairs are returned, their items are pairwise
distinct item indices below `size`, a returned pair `(j, s)` carries the score
the item loop computes for `j`, and an item that is not returned has a score
that is at most every returned score. -/
theorem C2_top_of_item_scores (allCritics : List (List α)) (personNum size myIndex : Nat)
    (scorer : ScoreFunc α) (recNum : Nat) (hlen : allCritics.length = personNum)
    (hrow : ∀ row ∈ allCritics, row.length = size) (hmy : myIndex < personNum)
    (hrec : recNum ≤ size) :
    ∃ allRels out, computeAllRels allCritics personNum size myIndex scorer = some allRels
      ∧ GetRecommendation allCritics personNum size myIndex scorer recNum = some out
      ∧ out.length = recNum
      ∧ (out.map Prod.fst).Nodup
      ∧ (∀ p ∈ out, p.1 < size)
      ∧ (∀ p ∈ out, itemScore allCritics personNum allRels p.1 = some p.2)
      ∧ (∀ j, j < size → j ∉ out.map Prod.fst →
          ∃ t, itemScore allCritics personNum allRels j = some t ∧ ∀ p ∈ out, t ≤ p.2) := by
  obtain ⟨out, hout, hl, -, hmem, hrest, hnd, -⟩ := GetRecommendation_facts allCritics
    personNum size myIndex scorer recNum hlen hrow hmy hrec
  refine ⟨_, out, computeAllRels_eq allCritics personNum size myIndex scorer hlen hmy, hout,
    hl, hnd, fun p hp => (hmem p hp).1, ?_, ?_⟩
  · intro p hp
    rw [itemScore_eq allCritics personNum size myIndex scorer p.1 hlen hrow (hmem p hp).1,
      (hmem p hp).2]
    rfl
  · intro j hj hnot
    exact ⟨_, itemScore_eq allCritics personNum size myIndex scorer j hlen hrow hj,
      hrest j hj hnot⟩

/-- Witness of C1 on the matrix of the spec's scenario, with a constant metric. -/
theorem C1_length_and_descending_witness :
    scenario.length = 3
      ∧ (∀ row ∈ scenario, row.length = 3)
      ∧ 0 < 3 ∧ 2 ≤ 3
      ∧ ∃ out, GetRecommendation scenario 3 3 0
            constMetric 2 = some out
          ∧ out.length = 2
          ∧ ∀ k p q, out[k]? = some p → out[k + 1]? = some q → p.2 ≥ q.2 :=
  ⟨rfl, by decide, by decide, by decide,
    C1_length_and_descending scenario 3 3 0 constMetric 2 rfl (by decide) (by decide) (by decide)⟩

/-- Witness of C2 on the matrix of the spec's scenario, with a constant metric. -/
theorem C2_top_of_item_scores_witness :
    scenario.length = 3
      ∧ (∀ row ∈ scenario, row.length = 3)
      ∧ 0 < 3 ∧ 1 ≤ 3
      ∧ ∃ allRels out,
          computeAllRels scenario 3 3 0
            constMetric = some allRels
          ∧ GetRecommendation scenario 3 3 0
            constMetric 1 = some out
          ∧ out.length = 1
          ∧ (out.map Prod.fst).Nodup
          ∧ (∀ p ∈ out, p.1 < 3)
          ∧ (∀ p ∈ out, itemScore scenario 3
              allRels p.1 = some p.2)
          ∧ (∀ j, j < 3 → j ∉ out.map Prod.fst →
              ∃ t, itemScore scenario 3
                  allRels j = some t ∧ ∀ p ∈ out, t ≤ p.2) :=
  ⟨rfl, by decide, by decide, by decide,
    C2_top_of_item_scores scenario 3 3 0 constMetric 1 rfl (by decide) (by decide) (by decide)⟩

/-- C3: on a well-formed matrix the similarity pass leaves
`allRels[idx] = scorer(allCritics[myIndex], allCritics[idx], size)` for
`idx ≠ myIndex` and `allRels[myIndex] = 0`, and the score the item loop computes
for item `j` is the weighted mean of the two zero-masked vectors, which equals
`sum(rating * similarity) / sum(similarity)` over exactly the subjects whose
rating of `j` is positive; a subject with a rating `≤ 0` enters neither sum.
(For a zero sum of weights both sides are the fallback `0`.) -/
theorem C3_item_score_formula (allCritics : List (List α)) (personNum size myIndex : Nat)
    (scorer : ScoreFunc α) (j : Nat) (hlen : allCritics.length = personNum)
    (hrow : ∀ row ∈ allCritics, row.length = size) (hmy : myIndex < personNum)
    (hj : j < size) :
    computeAllRels allCritics personNum size myIndex scorer
        = some ((List.range personNum).map (specSimilarity allCritics size myIndex scorer))
      ∧ itemScore allCritics personNum
          ((List.range personNum).map (specSimilarity allCritics size myIndex scorer)) j
        = some (GetWeightedMead (maskedCritics allCritics personNum j)
            (maskedRels allCritics personNum size myIndex scorer j))
      ∧ GetWeightedMead (maskedCritics allCritics personNum j)
            (maskedRels allCritics personNum size myIndex scorer j)
        = specScore allCritics personNum size myIndex scorer j
      ∧ ∀ idx, rating allCritics idx j ≤ 0 → idx ∉ raters allCritics personNum j :=
  ⟨computeAllRels_eq allCritics personNum size myIndex scorer hlen hmy,
    itemScore_eq allCritics personNum size myIndex scorer j hlen hrow hj,
    scoreOf_eq_specScore allCritics personNum size myIndex scorer j,
    fun idx h hin => by
      simp only [raters, List.mem_filter, decide_eq_true_eq] at hin
      exact absurd hin.2 (not_lt.mpr h)⟩

/-- Witness of C3: item 2 of the spec's scenario, with a constant metric. -/
theorem C3_item_score_formula_witness :
    scenario.length = 3 ∧ (∀ row ∈ scenario, row.length = 3) ∧ 0 < 3 ∧ 2 < 3
      ∧ computeAllRels scenario 3 3 0 constMetric
          = some ((List.range 3).map (specSimilarity scenario 3 0 constMetric))
      ∧ itemScore scenario 3 ((List.range 3).map (specSimilarity scenario 3 0 constMetric)) 2
          = some (GetWeightedMead (maskedCritics scenario 3 2)
              (maskedRels scenario 3 3 0 constMetric 2))
      ∧ GetWeightedMead (maskedCritics scenario 3 2) (maskedRels scenario 3 3 0 constMetric 2)
          = specScore scenario 3 3 0 constMetric 2
      ∧ ∀ idx, rating scenario idx 2 ≤ 0 → idx ∉ raters scenario 3 2 :=
  ⟨rfl, by decide, by decide, by decide,
    C3_item_score_formula scenario 3 3 0 constMetric 2 rfl (by decide) (by decide) (by decide)⟩

/-- C4: the target's own ratings never enter an item's aggregate: for a metric
whose value does not depend on its first (target-row) argument, two well-formed
matrices that differ only in the target's row give the same output, items and
scores alike, for the same target index and `recNum`. -/
theorem C4_target_row_irrelevant (m₁ m₂ : List (List α)) (personNum size myIndex : Nat)
    (scorer : ScoreFunc α) (recNum : Nat)
    (hlen₁ : m₁.length = personNum) (hlen₂ : m₂.length = personNum)
    (hrow₁ : ∀ row ∈ m₁, row.length = size) (hrow₂ : ∀ row ∈ m₂, row.length = size)
    (hmy : myIndex < personNum) (hrec : recNum ≤ size)
    (hsame : ∀ idx, idx ≠ myIndex → m₁[idx]? = m₂[idx]?)
    (hscorer : ∀ a b c n, scorer a c n = scorer b c n) :
    ∃ out, GetRecommendation m₁ personNum size myIndex scorer recNum = some out
      ∧ GetRecommendation m₂ personNum size myIndex scorer recNum = some out := by
  refine ⟨_, GetRecommendation_eq m₁ personNum size myIndex scorer recNum hlen₁ hrow₁ hmy hrec,
    ?_⟩
  rw [GetRecommendation_eq m₂ personNum size myIndex scorer recNum hlen₂ hrow₂ hmy hrec]
  have hfun : scoreOf m₂ personNum size myIndex scorer
      = scoreOf m₁ personNum size myIndex scorer :=
    funext (fun j => (scoreOf_congr_target m₁ m₂ personNum size myIndex scorer hsame
      hscorer j).symm)
  rw [hfun]

/-- Witness of C4: the scenario and a copy whose target row is `[1, 9, 7]`. -/
theorem C4_target_row_irrelevant_witness :
    scenario.length = 3 ∧ scenarioOtherTarget.length = 3
      ∧ (∀ row ∈ scenario, row.length = 3) ∧ (∀ row ∈ scenarioOtherTarget, row.length = 3)
      ∧ 0 < 3 ∧ 3 ≤ 3
      ∧ (∀ idx, idx ≠ 0 → scenario[idx]? = scenarioOtherTarget[idx]?)
      ∧ (∀ a b c n, constMetric a c n = constMetric b c n)
      ∧ ∃ out, GetRecommendation scenario 3 3 0 constMetric 3 = some out
          ∧ GetRecommendation scenarioOtherTarget 3 3 0 constMetric 3 = some out :=
  ⟨rfl, rfl, by decide, by decide, by decide, by decide,
    fun idx h => by cases idx with
      | zero => exact absurd rfl h
      | succ n => rfl,
    fun _ _ _ _ => rfl,
    C4_target_row_irrelevant scenario scenarioOtherTarget 3 3 0 constMetric 3 rfl rfl
      (by decide) (by decide) (by decide) (by decide)
      (fun idx h => by cases idx with
        | zero => exact absurd rfl h
        | succ n => rfl)
      (fun _ _ _ _ => rfl)⟩

/-- C5, the claim as stated fails: on the matrix `[[5], [3]]` with target 0 the
one item returned is item 0, which the target rated `5`. -/
theorem C5_counterexample :
    ∃ out, GetRecommendation ([[5], [3]] : List (List ℚ)) 2 1 0 constMetric 1 = some out
      ∧ ¬ ∀ p ∈ out, rating ([[5], [3]] : List (List ℚ)) 0 p.1 ≤ 0 := by
  refine ⟨[(0, 3)], by decide!, ?_⟩
  intro h
  exact absurd (h (0, 3) (List.mem_singleton.mpr rfl)) (by decide!)

/-- C5 as amended: every item `GetRecommendation` returns is an item index in
`[0, size)`, whether or not the target rated it; items the target rated are not
removed, so with `recNum = size` every item with `matrix[target][j] > 0` is
among the returned ones. -/
theorem C5_rated_items_not_filtered (allCritics : List (List α))
    (personNum size myIndex : Nat) (scorer : ScoreFunc α) (recNum : Nat)
    (hlen : allCritics.length = personNum) (hrow : ∀ row ∈ allCritics, row.length = size)
    (hmy : myIndex < personNum) (hrec : recNum ≤ size) :
    ∃ out, GetRecommendation allCritics personNum size myIndex scorer recNum = some out
      ∧ (∀ p ∈ out, p.1 < size)
      ∧ (recNum = size → ∀ j, j < size → 0 < rating allCritics myIndex j →
          j ∈ out.map Prod.fst) := by
  obtain ⟨out, hout, -, -, hmem, -, -, hperm⟩ := GetRecommendation_facts allCritics personNum
    size myIndex scorer recNum hlen hrow hmy hrec
  refine ⟨out, hout, fun p hp => (hmem p hp).1, ?_⟩
  intro h j hj _
  exact (hperm h).mem_iff.mpr (List.mem_range.mpr hj)

/-- Witness of C5 as amended, on the spec's scenario with `recNum = size`. -/
theorem C5_rated_items_not_filtered_witness :
    scenario.length = 3 ∧ (∀ row ∈ scenario, row.length = 3) ∧ 0 < 3 ∧ 3 ≤ 3
      ∧ ∃ out, GetRecommendation scenario 3 3 0 constMetric 3 = some out
          ∧ (∀ p ∈ out, p.1 < 3)
          ∧ (3 = 3 → ∀ j, j < 3 → 0 < rating scenario 0 j → j ∈ out.map Prod.fst) :=
  ⟨rfl, by decide, by decide, by decide,
    C5_rated_items_not_filtered scenario 3 3 0 constMetric 3 rfl (by decide) (by decide)
      (by decide)⟩

/-- C6: `GetRecommendation` ranks all `size` items without filtering: for
`recNum ≤ size` the returned item indices are pairwise distinct and lie in
`[0, size)`, and with `recNum = size` they are a permutation of `0 .. size-1`. -/
theorem C6_items_distinct_and_complete (allCritics : List (List α))
    (personNum size myIndex : Nat) (scorer : ScoreFunc α) (recNum : Nat)
    (hlen : allCritics.length = personNum) (hrow : ∀ row ∈ allCritics, row.length = size)
    (hmy : myIndex < personNum) (hrec : recNum ≤ size) :
    ∃ out, GetRecommendation allCritics personNum size myIndex scorer recNum = some out
      ∧ (out.map Prod.fst).Nodup
      ∧ (∀ j ∈ out.map Prod.fst, j < size)
      ∧ (recNum = size → (out.map Prod.fst).Perm (List.range size)) := by
  obtain ⟨out, hout, -, -, hmem, -, hnd, hperm⟩ := GetRecommendation_facts allCritics personNum
    size myIndex scorer recNum hlen hrow hmy hrec
  refine ⟨out, hout, hnd, ?_, hperm⟩
  intro j hj
  obtain ⟨p, hp, rfl⟩ := List.mem_map.mp hj
  exact (hmem p hp).1

/-- Witness of C6 on the spec's scenario with `recNum = size`. -/
theorem C6_items_distinct_and_complete_witness :
    scenario.length = 3 ∧ (∀ row ∈ scenario, row.length = 3) ∧ 0 < 3 ∧ 3 ≤ 3
      ∧ ∃ out, GetRecommendation scenario 3 3 0 constMetric 3 = some out
          ∧ (out.map Prod.fst).Nodup
          ∧ (∀ j ∈ out.map Prod.fst, j < 3)
          ∧ (3 = 3 → (out.map Prod.fst).Perm (List.range 3)) :=
  ⟨rfl, by decide, by decide, by decide,
    C6_items_distinct_and_complete scenario 3 3 0 constMetric 3 rfl (by decide) (by decide)
      (by decide)⟩

/-- C7, the claim as stated fails: on two identical rows `[1, 1]` both items
score `1`, and item 1 is written before item 0. -/
theorem C7_counterexample :
    ∃ out, GetRecommendation ([[1, 1], [1, 1]] : List (List ℚ)) 2 2 0 constMetric 2 = some out
      ∧ ¬ ∀ k p q, out[k]? = some p → out[k + 1]? = some q → p.2 = q.2 → p.1 < q.1 := by
  refine ⟨[(1, 1), (0, 1)], by decide!, ?_⟩
  intro h
  exact absurd (h 0 (1, 1) (0, 1) rfl rfl rfl) (by decide)

/-- C7 as amended: when two adjacent returned entries have equal scores,
`GetRecommendation` writes the one with the higher item index first:
`recScores[k] = recScores[k+1]` gives `recItems[k] > recItems[k+1]`. -/
theorem C7_ties_by_descending_index (allCritics : List (List α))
    (personNum size myIndex : Nat) (scorer : ScoreFunc α) (recNum : Nat)
    (hlen : allCritics.length = personNum) (hrow : ∀ row ∈ allCritics, row.length = size)
    (hmy : myIndex < personNum) (hrec : recNum ≤ size) :
    ∃ out, GetRecommendation allCritics personNum size myIndex scorer recNum = some out
      ∧ ∀ k p q, out[k]? = some p → out[k + 1]? = some q → p.2 = q.2 → q.1 < p.1 := by
  obtain ⟨out, hout, -, hpw, -⟩ := GetRecommendation_facts allCritics personNum size myIndex
    scorer recNum hlen hrow hmy hrec
  refine ⟨out, hout, ?_⟩
  intro k p q hp hq heq
  rcases adjacent_of_pairwise hpw k p q hp hq with h | h
  · exact absurd heq (ne_of_gt h)
  · exact h.2

/-- Witness of C7 as amended, on two identical rows. -/
theorem C7_ties_by_descending_index_witness :
    ([[1, 1], [1, 1]] : List (List ℚ)).length = 2
      ∧ (∀ row ∈ ([[1, 1], [1, 1]] : List (List ℚ)), row.length = 2) ∧ 0 < 2 ∧ 2 ≤ 2
      ∧ ∃ out, GetRecommendation ([[1, 1], [1, 1]] : List (List ℚ)) 2 2 0 constMetric 2
            = some out
          ∧ ∀ k p q, out[k]? = some p → out[k + 1]? = some q → p.2 = q.2 → q.1 < p.1 :=
  ⟨rfl, by decide, by decide, by decide,
    C7_ties_by_descending_index ([[1, 1], [1, 1]] : List (List ℚ)) 2 2 0 constMetric 2 rfl
      (by decide) (by decide) (by decide)⟩

/-! ## Rounding to binary64 -/

theorem roundHalfEven_bounds (m : ℚ) : ⌊m⌋ ≤ roundHalfEven m ∧ roundHalfEven m ≤ ⌊m⌋ + 1 := by
  unfold roundHalfEven
  split_ifs <;> constructor <;> omega

theorem roundHalfEven_intCast (n : ℤ) : roundHalfEven (n : ℚ) = n := by
  unfold roundHalfEven
  simp

theorem roundHalfEven_mono {a b : ℚ} (h : a ≤ b) : roundHalfEven a ≤ roundHalfEven b := by
  rcases lt_or_eq_of_le (Int.floor_mono h) with hlt | heq
  · exact le_trans (roundHalfEven_bounds a).2 (le_trans hlt (roundHalfEven_bounds b).1)
  · unfold roundHalfEven
    rw [heq]
    have hfrac : a - ⌊b⌋ ≤ b - ⌊b⌋ := by linarith
    split_ifs <;> first | omega | (exfalso; linarith)

theorem roundHalfEven_eq_of_near (m : ℚ) (n : ℤ) (h1 : (n : ℚ) - 1 / 2 < m)
    (h2 : m < (n : ℚ) + 1 / 2) : roundHalfEven m = n := by
  rcases le_or_lt (n : ℚ) m with hge | hlt
  · have hf : ⌊m⌋ = n := Int.floor_eq_iff.mpr ⟨hge, by linarith⟩
    unfold roundHalfEven
    rw [hf, if_pos (by linarith)]
  · have hf : ⌊m⌋ = n - 1 := Int.floor_eq_iff.mpr ⟨by push_cast; linarith, by push_cast; linarith⟩
    unfold roundHalfEven
    rw [hf, if_neg (by push_cast; linarith), if_pos (by push_cast; linarith)]
    omega

theorem quantumExp_mono {a b : ℚ} (ha : 0 < a) (h : a ≤ b) : quantumExp a ≤ quantumExp b := by
  unfold quantumExp
  have := Int.log_mono_right (b := 2) ha h
  omega

theorem two_zpow_pos (z : ℤ) : (0 : ℚ) < 2 ^ z := zpow_pos (by norm_num) z

theorem roundMag_le_of_lt_zpow {a : ℚ} (E : ℤ) (hq : quantumExp a = E - 52)
    (h : a < 2 ^ (E + 1)) : roundMag a ≤ 2 ^ (E + 1) := by
  unfold roundMag
  rw [hq]
  have hs := two_zpow_pos (E - 52)
  have h53 : a / 2 ^ (E - 52) ≤ ((2 ^ 53 : ℤ) : ℚ) := by
    rw [div_le_iff₀ hs]
    have : ((2 ^ 53 : ℤ) : ℚ) * 2 ^ (E - 52) = 2 ^ (E + 1) := by
      have h2 : (2 : ℚ) ≠ 0 := by norm_num
      have : E + 1 = 53 + (E - 52) := by ring
      rw [this, zpow_add₀ h2]
      norm_num
    rw [this]
    exact le_of_lt h
  have hr := roundHalfEven_mono h53
  rw [roundHalfEven_intCast] at hr
  have hr2 : ((roundHalfEven (a / 2 ^ (E - 52)) : ℤ) : ℚ) ≤ ((2 ^ 53 : ℤ) : ℚ) := by
    exact_mod_cast hr
  calc ((roundHalfEven (a / 2 ^ (E - 52)) : ℤ) : ℚ) * 2 ^ (E - 52)
      ≤ ((2 ^ 53 : ℤ) : ℚ) * 2 ^ (E - 52) := mul_le_mul_of_nonneg_right hr2 (le_of_lt hs)
    _ = 2 ^ (E + 1) := by
      have h2 : (2 : ℚ) ≠ 0 := by norm_num
      have : E + 1 = 53 + (E - 52) := by ring
      rw [this, zpow_add₀ h2]
      norm_num

theorem le_roundMag_of_zpow_le {b : ℚ} (E : ℤ) (hq : quantumExp b = E - 52)
    (h : 2 ^ E ≤ b) : 2 ^ E ≤ roundMag b := by
  unfold roundMag
  rw [hq]
  have hs := two_zpow_pos (E - 52)
  have hscale : ((2 ^ 52 : ℤ) : ℚ) * 2 ^ (E - 52) = 2 ^ E := by
    have h2 : (2 : ℚ) ≠ 0 := by norm_num
    have : E = 52 + (E - 52) := by ring
    nth_rewrite 2 [this]
    rw [zpow_add₀ h2]
    norm_num
  have h52 : ((2 ^ 52 : ℤ) : ℚ) ≤ b / 2 ^ (E - 52) := by
    rw [le_div_iff₀ hs, hscale]
    exact h
  have hr := roundHalfEven_mono h52
  rw [roundHalfEven_intCast] at hr
  have hr2 : ((2 ^ 52 : ℤ) : ℚ) ≤ ((roundHalfEven (b / 2 ^ (E - 52)) : ℤ) : ℚ) := by
    exact_mod_cast hr
  calc (2 : ℚ) ^ E = ((2 ^ 52 : ℤ) : ℚ) * 2 ^ (E - 52) := hscale.symm
    _ ≤ ((roundHalfEven (b / 2 ^ (E - 52)) : ℤ) : ℚ) * 2 ^ (E - 52) :=
      mul_le_mul_of_nonneg_right hr2 (le_of_lt hs)

theorem roundMag_mono {a b : ℚ} (ha : 0 < a) (h : a ≤ b) : roundMag a ≤ roundMag b := by
  have hb : 0 < b := lt_of_lt_of_le ha h
  rcases lt_or_eq_of_le (quantumExp_mono ha h) with hlt | heq
  · have hEa : quantumExp a = (max (Int.log 2 a) (-1022)) - 52 := rfl
    have hEb : quantumExp b = (max (Int.log 2 b) (-1022)) - 52 := rfl
    have hlogb : max (Int.log 2 b) (-1022) = Int.log 2 b := by
      rw [hEa, hEb] at hlt
      omega
    have hbq : quantumExp b = Int.log 2 b - 52 := by rw [hEb, hlogb]
    have h1 : roundMag a ≤ 2 ^ (max (Int.log 2 a) (-1022) + 1) := by
      apply roundMag_le_of_lt_zpow _ hEa
      refine lt_of_lt_of_le (Int.lt_zpow_succ_log_self (b := 2) (by norm_num) a) ?_
      have : (((2 : ℕ) : ℚ)) = 2 := by norm_num
      rw [this]
      exact zpow_le_zpow_right₀ (by norm_num) (by omega)
    have h2 : (2 : ℚ) ^ (Int.log 2 b) ≤ roundMag b := by
      apply le_roundMag_of_zpow_le _ hbq
      have := Int.zpow_log_le_self (b := 2) (by norm_num) hb
      simpa using this
    have h3 : (2 : ℚ) ^ (max (Int.log 2 a) (-1022) + 1) ≤ 2 ^ (Int.log 2 b) := by
      apply zpow_le_zpow_right₀ (by norm_num)
      rw [hEa, hbq] at hlt
      omega
    exact le_trans h1 (le_trans h3 h2)
  · unfold roundMag
    rw [heq]
    have hs := two_zpow_pos (quantumExp b)
    have hdiv : a / 2 ^ quantumExp b ≤ b / 2 ^ quantumExp b :=
      div_le_div_of_nonneg_right h (le_of_lt hs)
    have hr : ((roundHalfEven (a / 2 ^ quantumExp b) : ℤ) : ℚ)
        ≤ ((roundHalfEven (b / 2 ^ quantumExp b) : ℤ) : ℚ) := by
      exact_mod_cast roundHalfEven_mono hdiv
    exact mul_le_mul_of_nonneg_right hr (le_of_lt hs)

theorem quantumExp_of_binade {q : ℚ} (E : ℤ) (hq : 0 < q) (hlo : 2 ^ E ≤ q)
    (hhi : q < 2 ^ (E + 1)) (hE : -1022 ≤ E) : quantumExp q = E - 52 := by
  have h1 : E ≤ Int.log 2 q := by
    rw [← Int.zpow_le_iff_le_log (by norm_num) hq]
    simpa using hlo
  have h2 : Int.log 2 q < E + 1 := by
    rw [← Int.lt_zpow_iff_log_lt (by norm_num) hq]
    simpa using hhi
  unfold quantumExp
  omega

theorem quantumExp_of_subnormal {q : ℚ} (hq : 0 < q) (hhi : q < 2 ^ (-1022 : ℤ)) :
    quantumExp q = -1074 := by
  have h2 : Int.log 2 q < -1022 := by
    rw [← Int.lt_zpow_iff_log_lt (by norm_num) hq]
    simpa using hhi
  unfold quantumExp
  omega

theorem roundMag_eq_of_near {q : ℚ} (u n : ℤ) (hu : quantumExp q = u)
    (h1 : (n : ℚ) - 1 / 2 < q / 2 ^ u) (h2 : q / 2 ^ u < (n : ℚ) + 1 / 2) :
    roundMag q = (n : ℚ) * 2 ^ u := by
  unfold roundMag
  rw [hu, roundHalfEven_eq_of_near _ n h1 h2]

theorem roundMag_one : roundMag 1 = 1 := by
  have hu : quantumExp 1 = -52 := by
    have := quantumExp_of_binade (q := 1) 0 (by norm_num) (by norm_num) (by norm_num)
      (by norm_num)
    simpa using this
  rw [roundMag_eq_of_near (-52) (2 ^ 52) hu (by norm_num) (by norm_num)]
  norm_num

theorem roundMag_one_add_maxFinite : roundMag (1 + maxFinite) = maxFinite := by
  have hu : quantumExp (1 + maxFinite) = 971 := by
    have := quantumExp_of_binade (q := 1 + maxFinite) 1023 (by norm_num [maxFinite])
      (by norm_num [maxFinite]) (by norm_num [maxFinite]) (by norm_num)
    simpa using this
  rw [roundMag_eq_of_near 971 (2 ^ 53 - 1) hu (by norm_num [maxFinite])
    (by norm_num [maxFinite])]
  norm_num [maxFinite]

theorem roundMag_tiny : roundMag (1 / 2 ^ 1024) = 1 / 2 ^ 1024 := by
  have hu : quantumExp (1 / 2 ^ 1024) = -1074 :=
    quantumExp_of_subnormal (by norm_num) (by norm_num)
  rw [roundMag_eq_of_near (-1074) (2 ^ 50) hu (by norm_num) (by norm_num)]
  norm_num

theorem roundMag_one_add_small (k : ℚ) (h0 : 0 ≤ k) (hk : k < 1 / 2 ^ 53) :
    roundMag (1 + k) = 1 := by
  have h53 : (1 : ℚ) / 2 ^ 53 < 1 := by norm_num
  have hu : quantumExp (1 + k) = -52 := by
    have := quantumExp_of_binade (q := 1 + k) 0 (by linarith) (by norm_num; linarith)
      (by norm_num; linarith) (by norm_num)
    simpa using this
  have hscale : (1 + k) / 2 ^ (-52 : ℤ) = 2 ^ 52 + k * 2 ^ 52 := by
    norm_num
    ring
  have hk2 : k * 2 ^ 52 < 1 / 2 := by
    have : k * 2 ^ 52 < 1 / 2 ^ 53 * 2 ^ 52 := mul_lt_mul_of_pos_right hk (by norm_num)
    calc k * 2 ^ 52 < 1 / 2 ^ 53 * 2 ^ 52 := this
      _ = 1 / 2 := by norm_num
  have hk0 : 0 ≤ k * 2 ^ 52 := mul_nonneg h0 (by norm_num)
  rw [roundMag_eq_of_near (-52) (2 ^ 52) hu (by rw [hscale]; push_cast; linarith)
    (by rw [hscale]; push_cast; linarith)]
  norm_num

theorem maxFinite_lt : maxFinite < 2 ^ 1024 := by
  norm_num [maxFinite]

theorem roundNE_of_nonneg {q : ℚ} (h0 : 0 ≤ q) (hlt : roundMag q < 2 ^ 1024) :
    roundNE q = Double.finite (roundMag q) := by
  unfold roundNE
  rw [if_pos h0, if_pos hlt]

theorem sum_rounds_within (d : ℚ) (h0 : 0 ≤ d) (hmax : d ≤ maxFinite) :
    1 ≤ roundMag (1 + d) ∧ roundMag (1 + d) ≤ maxFinite := by
  constructor
  · have := roundMag_mono (a := 1) (b := 1 + d) (by norm_num) (by linarith)
    rwa [roundMag_one] at this
  · have := roundMag_mono (a := 1 + d) (b := 1 + maxFinite) (by linarith) (by linarith)
    rwa [roundMag_one_add_maxFinite] at this

theorem quotient_rounds_within (x : ℚ) (h1 : 1 ≤ x) (hmax : x ≤ maxFinite) :
    0 < roundMag (1 / x) ∧ roundMag (1 / x) ≤ 1 := by
  have hx : 0 < x := by linarith
  have hpos : 0 < 1 / x := div_pos one_pos hx
  constructor
  · have hle : (1 : ℚ) / 2 ^ 1024 ≤ 1 / x :=
      one_div_le_one_div_of_le hx (le_trans hmax (le_of_lt maxFinite_lt))
    have := roundMag_mono (a := 1 / 2 ^ 1024) (b := 1 / x) (by norm_num) hle
    rw [roundMag_tiny] at this
    exact lt_of_lt_of_le (by norm_num) this
  · have hle : 1 / x ≤ 1 := by
      rw [div_le_one hx]
      exact h1
    have := roundMag_mono (a := 1 / x) (b := 1) hpos hle
    rwa [roundMag_one] at this

theorem GetEuclideanScoreDouble_finite (d : ℚ) (h0 : 0 ≤ d) (hmax : d ≤ maxFinite) :
    GetEuclideanScoreDouble (Double.finite d)
      = Double.finite (roundMag (1 / roundMag (1 + d))) := by
  obtain ⟨hx1, hx2⟩ := sum_rounds_within d h0 hmax
  obtain ⟨-, hs2⟩ := quotient_rounds_within _ hx1 hx2
  have hadd : Double.add (Double.finite 1) (Double.finite d)
      = Double.finite (roundMag (1 + d)) := by
    show roundNE (1 + d) = _
    exact roundNE_of_nonneg (by linarith) (lt_of_le_of_lt hx2 maxFinite_lt)
  have hne : roundMag (1 + d) ≠ 0 := by
    intro h
    rw [h] at hx1
    norm_num at hx1
  unfold GetEuclideanScoreDouble
  rw [hadd]
  show (if roundMag (1 + d) = 0 then _ else roundNE (1 / roundMag (1 + d))) = _
  rw [if_neg hne]
  exact roundNE_of_nonneg (le_of_lt (div_pos one_pos (by linarith)))
    (lt_of_le_of_lt hs2 (by norm_num))

theorem succ_le_roundHalfEven (m : ℚ) (n : ℤ) (h : (n : ℚ) + 1 / 2 < m) :
    n + 1 ≤ roundHalfEven m := by
  have hfl : n ≤ ⌊m⌋ := Int.le_floor.mpr (by linarith)
  rcases lt_or_eq_of_le hfl with hlt | heq
  · exact le_trans (by omega) (roundHalfEven_bounds m).1
  · unfold roundHalfEven
    rw [← heq, if_neg (by linarith), if_pos (by linarith)]

theorem roundMag_two : roundMag 2 = 2 := by
  have hu : quantumExp 2 = -51 := by
    have := quantumExp_of_binade (q := 2) 1 (by norm_num) (by norm_num) (by norm_num)
      (by norm_num)
    simpa using this
  rw [roundMag_eq_of_near (-51) (2 ^ 52) hu (by norm_num) (by norm_num)]
  norm_num

theorem roundMag_one_add_large (d : ℚ) (hd : 1 / 2 ^ 53 < d) :
    1 + 1 / 2 ^ 52 ≤ roundMag (1 + d) := by
  rcases lt_or_le d 1 with hlt | hge
  · have hu : quantumExp (1 + d) = -52 := by
      have h53 : (0 : ℚ) < 1 / 2 ^ 53 := by norm_num
      have := quantumExp_of_binade (q := 1 + d) 0 (by linarith) (by norm_num; linarith)
        (by norm_num; linarith) (by norm_num)
      simpa using this
    have hscale : (1 + d) / 2 ^ (-52 : ℤ) = 2 ^ 52 + d * 2 ^ 52 := by
      norm_num
      ring
    have hd2 : (1 : ℚ) / 2 < d * 2 ^ 52 := by
      have : 1 / 2 ^ 53 * 2 ^ 52 < d * 2 ^ 52 := mul_lt_mul_of_pos_right hd (by norm_num)
      calc (1 : ℚ) / 2 = 1 / 2 ^ 53 * 2 ^ 52 := by norm_num
        _ < d * 2 ^ 52 := this
    have hr : (2 ^ 52 : ℤ) + 1 ≤ roundHalfEven ((1 + d) / 2 ^ (-52 : ℤ)) := by
      apply succ_le_roundHalfEven
      rw [hscale]
      push_cast
      linarith
    have hr2 : (((2 ^ 52 : ℤ) + 1 : ℤ) : ℚ) ≤ (roundHalfEven ((1 + d) / 2 ^ (-52 : ℤ)) : ℚ) := by
      exact_mod_cast hr
    unfold roundMag
    rw [hu]
    calc (1 : ℚ) + 1 / 2 ^ 52 = (((2 ^ 52 : ℤ) + 1 : ℤ) : ℚ) * 2 ^ (-52 : ℤ) := by norm_num
      _ ≤ (roundHalfEven ((1 + d) / 2 ^ (-52 : ℤ)) : ℚ) * 2 ^ (-52 : ℤ) :=
        mul_le_mul_of_nonneg_right hr2 (le_of_lt (two_zpow_pos _))
  · have := roundMag_mono (a := 2) (b := 1 + d) (by norm_num) (by linarith)
    rw [roundMag_two] at this
    exact le_trans (by norm_num) this

theorem roundMag_below_one : roundMag (1 / (1 + 1 / 2 ^ 52)) = 1 - 1 / 2 ^ 52 := by
  have hu : quantumExp (1 / (1 + 1 / 2 ^ 52)) = -53 := by
    have := quantumExp_of_binade (q := 1 / (1 + 1 / 2 ^ 52)) (-1) (by norm_num) (by norm_num)
      (by norm_num) (by norm_num)
    simpa using this
  rw [roundMag_eq_of_near (-53) (2 ^ 53 - 2) hu (by norm_num) (by norm_num)]
  norm_num

theorem roundMag_tie_above_one : roundMag (1 + 1 / 2 ^ 53) = 1 := by
  have hu : quantumExp (1 + 1 / 2 ^ 53) = -52 := by
    have := quantumExp_of_binade (q := 1 + 1 / 2 ^ 53) 0 (by norm_num) (by norm_num)
      (by norm_num) (by norm_num)
    simpa using this
  have hm : (1 + 1 / 2 ^ 53 : ℚ) / 2 ^ (-52 : ℤ) = ((2 ^ 52 : ℤ) : ℚ) + 1 / 2 := by
    norm_num
  have hf : ⌊((2 ^ 52 : ℤ) : ℚ) + 1 / 2⌋ = 2 ^ 52 :=
    Int.floor_eq_iff.mpr ⟨by norm_num, by norm_num⟩
  have hr : roundHalfEven (((2 ^ 52 : ℤ) : ℚ) + 1 / 2) = 2 ^ 52 := by
    unfold roundHalfEven
    rw [hf, if_neg (by norm_num), if_neg (by norm_num), if_pos (by norm_num)]
  unfold roundMag
  rw [hu, hm, hr]
  norm_num

theorem roundMag_one_add_le (d : ℚ) (h0 : 0 ≤ d) (hd : d ≤ 1 / 2 ^ 53) :
    roundMag (1 + d) = 1 := by
  apply le_antisymm
  · have := roundMag_mono (a := 1 + d) (b := 1 + 1 / 2 ^ 53) (by linarith) (by linarith)
    rwa [roundMag_tie_above_one] at this
  · have := roundMag_mono (a := 1) (b := 1 + d) (by norm_num) (by linarith)
    rwa [roundMag_one] at this

theorem score_eq_one_iff (d : ℚ) (h0 : 0 ≤ d) :
    roundMag (1 / roundMag (1 + d)) = 1 ↔ d ≤ 1 / 2 ^ 53 := by
  constructor
  · intro hs
    by_contra hd
    have hx := roundMag_one_add_large d (not_le.mp hd)
    have hxpos : (0 : ℚ) < roundMag (1 + d) := lt_of_lt_of_le (by norm_num) hx
    have hle : 1 / roundMag (1 + d) ≤ 1 / (1 + 1 / 2 ^ 52) :=
      one_div_le_one_div_of_le (by norm_num) hx
    have := roundMag_mono (div_pos one_pos hxpos) hle
    rw [roundMag_below_one, hs] at this
    norm_num at this
  · intro hd
    rw [roundMag_one_add_le d h0 hd]
    norm_num
    exact roundMag_one

theorem roundMag_two_pow_neg_sixty : roundMag (1 / 2 ^ 60) = 1 / 2 ^ 60 := by
  have hu : quantumExp (1 / 2 ^ 60) = -112 := by
    have := quantumExp_of_binade (q := 1 / 2 ^ 60) (-60) (by norm_num) (by norm_num)
      (by norm_num) (by norm_num)
    simpa using this
  rw [roundMag_eq_of_near (-112) (2 ^ 52) hu (by norm_num) (by norm_num)]
  norm_num

theorem GetEuclideanScoreDouble_posInf :
    GetEuclideanScoreDouble Double.posInf = Double.finite 0 := rfl

/-- C8, the claim as stated fails in `double` arithmetic: `2^-60` is a positive
double, `1 + 2^-60` rounds to `1`, and the score is exactly `1`. -/
theorem C8_counterexample :
    (0 : ℚ) ≤ 1 / 2 ^ 60
      ∧ roundNE (1 / 2 ^ 60) = Double.finite (1 / 2 ^ 60)
      ∧ GetEuclideanScoreDouble (Double.finite (1 / 2 ^ 60)) = Double.finite 1
      ∧ ¬ (GetEuclideanScoreDouble (Double.finite (1 / 2 ^ 60)) = Double.finite 1
            ↔ (1 / 2 ^ 60 : ℚ) = 0) := by
  have hval : GetEuclideanScoreDouble (Double.finite (1 / 2 ^ 60)) = Double.finite 1 := by
    rw [GetEuclideanScoreDouble_finite _ (by norm_num) (by norm_num [maxFinite]),
      (score_eq_one_iff _ (by norm_num)).mpr (by norm_num)]
  refine ⟨by norm_num, ?_, hval, ?_⟩
  · rw [roundNE_of_nonneg (by norm_num) (by rw [roundMag_two_pow_neg_sixty]; norm_num),
      roundMag_two_pow_neg_sixty]
  · intro h
    have := h.mp hval
    norm_num at this

/-- C8 as amended: for every finite distance `0 ≤ dist ≤ DBL_MAX`,
`GetEuclideanScore(dist)` is the double got by rounding `1 / x`, where `x` is the
rounded sum `1 + dist` (round to nearest, ties to even); it lies in `(0, 1]`,
and it is exactly `1` if and only if `dist ≤ 2^-53`, in particular at
`dist = 0`. -/
theorem C8_double_score_range (dist : ℚ) (h0 : 0 ≤ dist) (hmax : dist ≤ maxFinite) :
    ∃ s, GetEuclideanScoreDouble (Double.finite dist) = Double.finite s
      ∧ s = roundMag (1 / roundMag (1 + dist))
      ∧ 0 < s ∧ s ≤ 1
      ∧ (s = 1 ↔ dist ≤ 1 / 2 ^ 53) := by
  obtain ⟨hx1, hx2⟩ := sum_rounds_within dist h0 hmax
  obtain ⟨hs1, hs2⟩ := quotient_rounds_within _ hx1 hx2
  exact ⟨_, GetEuclideanScoreDouble_finite dist h0 hmax, rfl, hs1, hs2,
    score_eq_one_iff dist h0⟩

/-- Witness of C8 as amended at the distance `3`. -/
theorem C8_double_score_range_witness :
    (0 : ℚ) ≤ 3 ∧ (3 : ℚ) ≤ maxFinite
      ∧ ∃ s, GetEuclideanScoreDouble (Double.finite 3) = Double.finite s
          ∧ s = roundMag (1 / roundMag (1 + 3))
          ∧ 0 < s ∧ s ≤ 1
          ∧ (s = 1 ↔ (3 : ℚ) ≤ 1 / 2 ^ 53) :=
  ⟨by norm_num, by norm_num [maxFinite],
    C8_double_score_range 3 (by norm_num) (by norm_num [maxFinite])⟩

/-- C9, the claim as stated fails in `double` arithmetic: `2^-60 < 2^-59`, and
both distances get the score `1`, so the first score is not greater. -/
theorem C9_counterexample :
    (0 : ℚ) ≤ 1 / 2 ^ 60 ∧ (1 / 2 ^ 60 : ℚ) < 1 / 2 ^ 59
      ∧ GetEuclideanScoreDouble (Double.finite (1 / 2 ^ 60)) = Double.finite 1
      ∧ GetEuclideanScoreDouble (Double.finite (1 / 2 ^ 59)) = Double.finite 1
      ∧ ¬ ∃ s1 s2, GetEuclideanScoreDouble (Double.finite (1 / 2 ^ 60)) = Double.finite s1
          ∧ GetEuclideanScoreDouble (Double.finite (1 / 2 ^ 59)) = Double.finite s2
          ∧ s1 > s2 := by
  have h60 : GetEuclideanScoreDouble (Double.finite (1 / 2 ^ 60)) = Double.finite 1 := by
    rw [GetEuclideanScoreDouble_finite _ (by norm_num) (by norm_num [maxFinite]),
      (score_eq_one_iff _ (by norm_num)).mpr (by norm_num)]
  have h59 : GetEuclideanScoreDouble (Double.finite (1 / 2 ^ 59)) = Double.finite 1 := by
    rw [GetEuclideanScoreDouble_finite _ (by norm_num) (by norm_num [maxFinite]),
      (score_eq_one_iff _ (by norm_num)).mpr (by norm_num)]
  refine ⟨by norm_num, by norm_num, h60, h59, ?_⟩
  rintro ⟨s1, s2, e1, e2, hgt⟩
  rw [h60] at e1
  rw [h59] at e2
  have a1 : (1 : ℚ) = s1 := Double.finite.inj e1
  have a2 : (1 : ℚ) = s2 := Double.finite.inj e2
  rw [← a1, ← a2] at hgt
  exact lt_irrefl _ hgt

/-- C9 as amended: `GetEuclideanScore` is non-increasing in the distance: for
all finite distances `0 ≤ d1 < d2 ≤ DBL_MAX`,
`GetEuclideanScore(d1) ≥ GetEuclideanScore(d2)`. -/
theorem C9_double_score_non_increasing (d1 d2 : ℚ) (h1 : 0 ≤ d1) (h2 : d1 < d2)
    (hmax : d2 ≤ maxFinite) :
    ∃ s1 s2, GetEuclideanScoreDouble (Double.finite d1) = Double.finite s1
      ∧ GetEuclideanScoreDouble (Double.finite d2) = Double.finite s2
      ∧ s1 ≥ s2 := by
  have hmax1 : d1 ≤ maxFinite := le_trans (le_of_lt h2) hmax
  have h02 : 0 ≤ d2 := le_trans h1 (le_of_lt h2)
  obtain ⟨hx1, -⟩ := sum_rounds_within d1 h1 hmax1
  obtain ⟨hy1, -⟩ := sum_rounds_within d2 h02 hmax
  refine ⟨_, _, GetEuclideanScoreDouble_finite d1 h1 hmax1,
    GetEuclideanScoreDouble_finite d2 h02 hmax, ?_⟩
  have hxy : roundMag (1 + d1) ≤ roundMag (1 + d2) :=
    roundMag_mono (by linarith) (by linarith)
  have hinv : 1 / roundMag (1 + d2) ≤ 1 / roundMag (1 + d1) :=
    one_div_le_one_div_of_le (by linarith) hxy
  exact roundMag_mono (div_pos one_pos (by linarith)) hinv

/-- Witness of C9 as amended at the distances `1` and `3`. -/
theorem C9_double_score_non_increasing_witness :
    (0 : ℚ) ≤ 1 ∧ (1 : ℚ) < 3 ∧ (3 : ℚ) ≤ maxFinite
      ∧ ∃ s1 s2, GetEuclideanScoreDouble (Double.finite 1) = Double.finite s1
          ∧ GetEuclideanScoreDouble (Double.finite 3) = Double.finite s2
          ∧ s1 ≥ s2 :=
  ⟨by norm_num, by norm_num, by norm_num [maxFinite],
    C9_double_score_non_increasing 1 3 (by norm_num) (by norm_num) (by norm_num [maxFinite])⟩

/-- C10: with the Euclidean distance on the reals, the Euclidean-derived metric
of a vector with itself is `1`, for every vector and every `size`, and `1` is
the largest value the metric takes on any two vectors. -/
theorem C10_euclidean_self_similarity_is_max (v : List ℝ) (size : Nat) :
    GetEuclideanScoreVec (GetEuclideanDistance Real.sqrt) v v size = 1
      ∧ ∀ a b : List ℝ, GetEuclideanScoreVec (GetEuclideanDistance Real.sqrt) a b size ≤ 1 := by
  constructor
  · unfold GetEuclideanScoreVec GetEuclideanDistance
    simp only []
    rw [zipWith_sq_diff_self, Real.sqrt_zero]
    norm_num [GetEuclideanScore]
  · intro a b
    unfold GetEuclideanScoreVec
    simp only []
    exact (GetEuclideanScore_le_one _ (Real.sqrt_nonneg _))

/-! ## Calls outside the precondition -/

theorem readTop_none :
    ∀ (n : Nat) (l : List (α × Nat)), l.length < n → readTop n l = none
  | 0, _, h => absurd h (Nat.not_lt_zero _)
  | _ + 1, [], _ => rfl
  | n + 1, _ :: rest, h => by
    have hr := readTop_none n rest (Nat.lt_of_succ_lt_succ h)
    simp [readTop, hr]

theorem computeAllRels_none (allCritics : List (List α)) (personNum size myIndex : Nat)
    (scorer : ScoreFunc α) (hlen : allCritics.length = personNum) (hpos : 0 < personNum)
    (hmy : personNum ≤ myIndex) :
    computeAllRels allCritics personNum size myIndex scorer = none := by
  obtain ⟨n, rfl⟩ : ∃ n, personNum = n + 1 := ⟨personNum - 1, by omega⟩
  have hne : (0 : Nat) ≠ myIndex := by omega
  have hrow : allCritics[myIndex]? = none := List.getElem?_eq_none (by omega)
  have hbody : relOf allCritics size myIndex scorer 0 = none := by
    simp [relOf, hne, hrow]
  simp [computeAllRels, List.range_succ_eq_map, forEach, hbody]

/-- C11, the claim as stated fails: on two rows of two items and `recNum = 3`
the call is not rejected with `InvalidArgument`; the output loop steps past the
two entries of the map. -/
theorem C11_counterexample :
    GetRecommendation ([[1, 1], [1, 1]] : List (List ℚ)) 2 2 0 constMetric 3 = none
      ∧ outcomeOf (GetRecommendation ([[1, 1], [1, 1]] : List (List ℚ)) 2 2 0 constMetric 3)
          ≠ Outcome.invalidArgument := by
  have h : GetRecommendation ([[1, 1], [1, 1]] : List (List ℚ)) 2 2 0 constMetric 3 = none := by
    decide!
  refine ⟨h, ?_⟩
  rw [h]
  intro hc
  cases hc

/-- C11 as amended: `GetRecommendation` has no check of `recNum`.  On a
well-formed matrix with `size` items and `recNum > size` no `InvalidArgument`
is reported: the output loop advances the reverse iterator past the `size`
entries of the map and dereferences `rend()`, which is undefined behaviour. -/
theorem C11_topN_beyond_items_is_undefined (allCritics : List (List α))
    (personNum size myIndex : Nat) (scorer : ScoreFunc α) (recNum : Nat)
    (hlen : allCritics.length = personNum) (hrow : ∀ row ∈ allCritics, row.length = size)
    (hmy : myIndex < personNum) (hrec : size < recNum) :
    (∃ mapScores,
        fillScores allCritics personNum
            ((List.range personNum).map (specSimilarity allCritics size myIndex scorer))
            (List.range size) [] = some mapScores
          ∧ mapScores.length = size
          ∧ readTop recNum mapScores.reverse = none)
      ∧ GetRecommendation allCritics personNum size myIndex scorer recNum = none
      ∧ outcomeOf (GetRecommendation allCritics personNum size myIndex scorer recNum)
          = Outcome.undefinedBehaviour := by
  have hfill := fillScores_eq allCritics personNum
    ((List.range personNum).map (specSimilarity allCritics size myIndex scorer))
    (scoreOf allCritics personNum size myIndex scorer) (List.range size) [] (fun j hj =>
      itemScore_eq allCritics personNum size myIndex scorer j hlen hrow (List.mem_range.mp hj))
  have htop : readTop recNum
      (filled (scoreOf allCritics personNum size myIndex scorer) (List.range size) []).reverse
        = none :=
    readTop_none recNum _ (by rw [List.length_reverse, filled_length]; exact hrec)
  have hnone : GetRecommendation allCritics personNum size myIndex scorer recNum = none := by
    unfold GetRecommendation
    rw [computeAllRels_eq allCritics personNum size myIndex scorer hlen hmy]
    simp only []
    rw [hfill]
    exact htop
  refine ⟨⟨_, hfill, filled_length _ size, htop⟩, hnone, ?_⟩
  rw [hnone]
  rfl

/-- Witness of C11 as amended: the spec's scenario with `recNum = 4`. -/
theorem C11_topN_beyond_items_is_undefined_witness :
    scenario.length = 3 ∧ (∀ row ∈ scenario, row.length = 3) ∧ 0 < 3 ∧ 3 < 4
      ∧ (∃ mapScores,
          fillScores scenario 3 ((List.range 3).map (specSimilarity scenario 3 0 constMetric))
              (List.range 3) [] = some mapScores
            ∧ mapScores.length = 3
            ∧ readTop 4 mapScores.reverse = none)
      ∧ GetRecommendation scenario 3 3 0 constMetric 4 = none
      ∧ outcomeOf (GetRecommendation scenario 3 3 0 constMetric 4)
          = Outcome.undefinedBehaviour :=
  ⟨rfl, by decide, by decide, by decide,
    C11_topN_beyond_items_is_undefined scenario 3 3 0 constMetric 4 rfl (by decide) (by decide)
      (by decide)⟩

/-- C12, the claim as stated fails: on the spec's scenario (3 subjects) and the
target index 3 the call is not rejected with `InvalidArgument`; the similarity
pass reads the row pointer `allCritics[3]` outside the matrix. -/
theorem C12_counterexample :
    GetRecommendation scenario 3 3 3 constMetric 1 = none
      ∧ outcomeOf (GetRecommendation scenario 3 3 3 constMetric 1)
          ≠ Outcome.invalidArgument := by
  have h : GetRecommendation scenario 3 3 3 constMetric 1 = none := by
    decide!
  refine ⟨h, ?_⟩
  rw [h]
  intro hc
  cases hc

/-- C12 as amended: `GetRecommendation` has no range check of the target index.
On a matrix of `personNum ≥ 1` rows and a target index outside `[0, personNum)`
no `InvalidArgument` is reported: the similarity pass reads the row pointer
`allCritics[myIndex]` outside the matrix, which is undefined behaviour, before
any output is written. -/
theorem C12_target_out_of_range_is_undefined (allCritics : List (List α))
    (personNum size myIndex : Nat) (scorer : ScoreFunc α) (recNum : Nat)
    (hlen : allCritics.length = personNum) (hpos : 0 < personNum)
    (hmy : personNum ≤ myIndex) :
    computeAllRels allCritics personNum size myIndex scorer = none
      ∧ GetRecommendation allCritics personNum size myIndex scorer recNum = none
      ∧ outcomeOf (GetRecommendation allCritics personNum size myIndex scorer recNum)
          = Outcome.undefinedBehaviour := by
  have hrels := computeAllRels_none allCritics personNum size myIndex scorer hlen hpos hmy
  have hnone : GetRecommendation allCritics personNum size myIndex scorer recNum = none := by
    unfold GetRecommendation
    rw [hrels]
  refine ⟨hrels, hnone, ?_⟩
  rw [hnone]
  rfl

/-- Witness of C12 as amended: the spec's scenario with the target index 7. -/
theorem C12_target_out_of_range_is_undefined_witness :
    scenario.length = 3 ∧ 0 < 3 ∧ 3 ≤ 7
      ∧ computeAllRels scenario 3 3 7 constMetric = none
      ∧ GetRecommendation scenario 3 3 7 constMetric 2 = none
      ∧ outcomeOf (GetRecommendation scenario 3 3 7 constMetric 2)
          = Outcome.undefinedBehaviour :=
  ⟨rfl, by decide, by decide,
    C12_target_out_of_range_is_undefined scenario 3 3 7 constMetric 2 rfl (by decide)
      (by decide)⟩

/-- C13: on a well-formed matrix, a valid target index and any metric,
`GetRecommendation` with `recNum = 0` returns without error and writes no entry
of `recItems` or `recScores`. -/
theorem C13_topN_zero_writes_nothing (allCritics : List (List α))
    (personNum size myIndex : Nat) (scorer : ScoreFunc α)
    (hlen : allCritics.length = personNum) (hrow : ∀ row ∈ allCritics, row.length = size)
    (hmy : myIndex < personNum) :
    GetRecommendation allCritics personNum size myIndex scorer 0 = some []
      ∧ outcomeOf (GetRecommendation allCritics personNum size myIndex scorer 0)
          = Outcome.returned [] := by
  have h : GetRecommendation allCritics personNum size myIndex scorer 0 = some [] := by
    rw [GetRecommendation_eq allCritics personNum size myIndex scorer 0 hlen hrow hmy
      (Nat.zero_le size)]
    simp
  refine ⟨h, ?_⟩
  rw [h]
  rfl

/-- Witness of C13 on the spec's scenario. -/
theorem C13_topN_zero_writes_nothing_witness :
    scenario.length = 3 ∧ (∀ row ∈ scenario, row.length = 3) ∧ 0 < 3
      ∧ GetRecommendation scenario 3 3 0 constMetric 0 = some []
      ∧ outcomeOf (GetRecommendation scenario 3 3 0 constMetric 0) = Outcome.returned [] :=
  ⟨rfl, by decide, by decide,
    C13_topN_zero_writes_nothing scenario 3 3 0 constMetric rfl (by decide) (by decide)⟩

/-! ## The scenario, the normalisers, and degenerate items -/

theorem GetWeightedMead_eq_div (values weights : List α) :
    GetWeightedMead values weights
      = (List.zipWith (fun c r => c * r) values weights).sum / weights.sum := by
  unfold GetWeightedMead
  split_ifs with h
  · rw [h, div_zero]
  · rfl

theorem zipWith_mul_zero_weights :
    ∀ vs ws : List α, (∀ w ∈ ws, w = 0) → (List.zipWith (fun c r => c * r) vs ws).sum = 0
  | [], _, _ => by simp
  | _ :: _, [], _ => by simp
  | v :: vs, w :: ws, h => by
    have hw : w = 0 := h w (List.mem_cons_self _ _)
    have hr := zipWith_mul_zero_weights vs ws (fun x hx => h x (List.mem_cons_of_mem _ hx))
    simp [hw, hr]

/-- C14: in the scenario `[[5,3,0],[4,0,2],[5,4,1]]`, target 0, Euclidean-derived
metric, the similarity pass leaves `[0, s1, s2]` with `s1 = 1/(1 + sqrt 14)` and
`s2 = 1/(1 + sqrt 2)`, and the score computed for item 2 is
`(2*s1 + 1*s2) / (s1 + s2)`; subject 0 enters with weight `0` and a masked
rating. -/
theorem C14_scenario_item_two :
    computeAllRels ([[5, 3, 0], [4, 0, 2], [5, 4, 1]] : List (List ℝ)) 3 3 0
        (GetEuclideanScoreVec (GetEuclideanDistance Real.sqrt))
      = some [0, 1 / (1 + Real.sqrt 14), 1 / (1 + Real.sqrt 2)]
    ∧ itemScore ([[5, 3, 0], [4, 0, 2], [5, 4, 1]] : List (List ℝ)) 3
        [0, 1 / (1 + Real.sqrt 14), 1 / (1 + Real.sqrt 2)] 2
      = some ((2 * (1 / (1 + Real.sqrt 14)) + 1 * (1 / (1 + Real.sqrt 2)))
          / (1 / (1 + Real.sqrt 14) + 1 / (1 + Real.sqrt 2))) := by
  have hr : List.range 3 = [0, 1, 2] := rfl
  constructor
  · simp only [computeAllRels, hr, forEach, relOf, GetEuclideanScoreVec, GetEuclideanDistance,
      GetEuclideanScore]
    norm_num
  · simp only [itemScore, hr, forEach, maskOf, cell]
    norm_num [GetWeightedMead_eq_div]

/-- C15: the Pearson, Tanimoto and Cosine normalisers return their argument
unchanged, so each of the three vector metrics returns the value of its
underlying primitive on the two ranges `[p, p + size)`. -/
theorem C15_normalisers_pass_through (x : α) (primitive : List α → List α → α)
    (myCritics hisCritics : List α) (size : Nat) :
    GetPearsonScore x = x ∧ GetTanimotoScore x = x ∧ GetCosineScore x = x
      ∧ GetPearsonScoreVec primitive myCritics hisCritics size
          = primitive (myCritics.take size) (hisCritics.take size)
      ∧ GetTanimotoScoreVec primitive myCritics hisCritics size
          = primitive (myCritics.take size) (hisCritics.take size)
      ∧ GetCosineScoreVec primitive myCritics hisCritics size
          = primitive (myCritics.take size) (hisCritics.take size) :=
  ⟨rfl, rfl, rfl, rfl, rfl, rfl⟩

/-- C16: for an item `j` that every peer rated `≤ 0`, every entry of the
similarity vector handed to the weighted mean is `0` (the target's entry too,
whatever the target's rating), the weighted mean is taken with numerator `0`
and denominator `0`, the item's score is the fallback `0`, and
`GetRecommendation` completes and ranks `j` with the score `0`. -/
theorem C16_unrated_item_scores_zero (allCritics : List (List α))
    (personNum size myIndex : Nat) (scorer : ScoreFunc α) (j : Nat)
    (hlen : allCritics.length = personNum) (hrow : ∀ row ∈ allCritics, row.length = size)
    (hmy : myIndex < personNum) (hj : j < size)
    (hun : ∀ idx, idx < personNum → idx ≠ myIndex → rating allCritics idx j ≤ 0) :
    ∃ allRels masked,
      computeAllRels allCritics personNum size myIndex scorer = some allRels
        ∧ forEach (maskOf allCritics allRels j) (List.range personNum) = some masked
        ∧ (∀ p ∈ masked, p.1 = 0)
        ∧ (List.zipWith (fun c r => c * r) (masked.map Prod.snd) (masked.map Prod.fst)).sum = 0
        ∧ (masked.map Prod.fst).sum = 0
        ∧ itemScore allCritics personNum allRels j = some 0
        ∧ ∀ recNum, recNum ≤ size →
            ∃ out, GetRecommendation allCritics personNum size myIndex scorer recNum = some out
              ∧ (∀ p ∈ out, p.1 = j → p.2 = 0)
              ∧ (recNum = size → (j, 0) ∈ out) := by
  have hmask := forEach_eq_map _ _ (List.range personNum) (fun p hp =>
    maskOf_eq allCritics personNum size myIndex scorer j p hlen hrow hj (List.mem_range.mp hp))
  have hzero : ∀ p ∈ (List.range personNum).map (fun p =>
      ((if rating allCritics p j ≤ 0 then 0
          else specSimilarity allCritics size myIndex scorer p),
        (if rating allCritics p j ≤ 0 then 0 else rating allCritics p j))), p.1 = 0 := by
    intro p hp
    obtain ⟨idx, hidx, rfl⟩ := List.mem_map.mp hp
    by_cases h : idx = myIndex
    · simp [specSimilarity, h]
    · simp [hun idx (List.mem_range.mp hidx) h]
  have hw : ∀ w ∈ ((List.range personNum).map (fun p =>
      ((if rating allCritics p j ≤ 0 then 0
          else specSimilarity allCritics size myIndex scorer p),
        (if rating allCritics p j ≤ 0 then 0 else rating allCritics p j)))).map Prod.fst,
      w = 0 := by
    intro w hw
    obtain ⟨p, hp, rfl⟩ := List.mem_map.mp hw
    exact hzero p hp
  have hscore : itemScore allCritics personNum
      ((List.range personNum).map (specSimilarity allCritics size myIndex scorer)) j
        = some 0 := by
    unfold itemScore
    rw [hmask]
    simp only []
    rw [GetWeightedMead, if_pos (List.sum_eq_zero hw)]
  have hsc : scoreOf allCritics personNum size myIndex scorer j = 0 := by
    have h := itemScore_eq allCritics personNum size myIndex scorer j hlen hrow hj
    rw [hscore] at h
    exact (Option.some.inj h).symm
  refine ⟨_, _, computeAllRels_eq allCritics personNum size myIndex scorer hlen hmy, hmask,
    hzero, zipWith_mul_zero_weights _ _ hw, List.sum_eq_zero hw, hscore, ?_⟩
  intro recNum hrec
  obtain ⟨out, hout, -, -, hmem, -, -, hperm⟩ := GetRecommendation_facts allCritics personNum
    size myIndex scorer recNum hlen hrow hmy hrec
  refine ⟨out, hout, ?_, ?_⟩
  · intro p hp hpj
    rw [(hmem p hp).2, hpj, hsc]
  · intro hfull
    have hin : j ∈ out.map Prod.fst := (hperm hfull).mem_iff.mpr (List.mem_range.mpr hj)
    obtain ⟨p, hp, hpj⟩ := List.mem_map.mp hin
    have hp2 : p.2 = 0 := by rw [(hmem p hp).2, hpj, hsc]
    have : p = (j, 0) := Prod.ext hpj hp2
    rw [← this]
    exact hp

/-- Witness of C16: item 1 of `[[5, 0], [4, 0], [3, 0]]`, which nobody rated. -/
theorem C16_unrated_item_scores_zero_witness :
    unratedItem.length = 3 ∧ (∀ row ∈ unratedItem, row.length = 2) ∧ 0 < 3 ∧ 1 < 2
      ∧ (∀ idx, idx < 3 → idx ≠ 0 → rating unratedItem idx 1 ≤ 0)
      ∧ ∃ allRels masked,
          computeAllRels unratedItem 3 2 0 constMetric = some allRels
            ∧ forEach (maskOf unratedItem allRels 1) (List.range 3) = some masked
            ∧ (∀ p ∈ masked, p.1 = 0)
            ∧ (List.zipWith (fun c r => c * r) (masked.map Prod.snd)
                (masked.map Prod.fst)).sum = 0
            ∧ (masked.map Prod.fst).sum = 0
            ∧ itemScore unratedItem 3 allRels 1 = some 0
            ∧ ∀ recNum, recNum ≤ 2 →
                ∃ out, GetRecommendation unratedItem 3 2 0 constMetric recNum = some out
                  ∧ (∀ p ∈ out, p.1 = 1 → p.2 = 0)
                  ∧ (recNum = 2 → (1, 0) ∈ out) :=
  ⟨rfl, by decide, by decide, by decide, by decide!,
    C16_unrated_item_scores_zero unratedItem 3 2 0 constMetric 1 rfl (by decide) (by decide)
      (by decide) (by decide!)⟩

/-! ## Bounds on a weighted score -/

theorem weighted_sum_between (f g : Nat → α) (l : List Nat) (lo hi : α)
    (hg : ∀ i ∈ l, 0 ≤ g i) (hb : ∀ i ∈ l, 0 < g i → lo ≤ f i ∧ f i ≤ hi)
    (hex : ∃ i ∈ l, 0 < g i) :
    lo ≤ (l.map (fun i => f i * g i)).sum / (l.map g).sum
      ∧ (l.map (fun i => f i * g i)).sum / (l.map g).sum ≤ hi := by
  obtain ⟨k, hk, hkpos⟩ := hex
  have hnonneg : ∀ x ∈ l.map g, 0 ≤ x := by
    intro x hx
    obtain ⟨i, hi, rfl⟩ := List.mem_map.mp hx
    exact hg i hi
  have hden : 0 < (l.map g).sum :=
    lt_of_lt_of_le hkpos (List.single_le_sum hnonneg (g k) (List.mem_map_of_mem g hk))
  constructor
  · rw [le_div_iff₀ hden, ← List.sum_map_mul_left]
    apply List.sum_le_sum
    intro i hi
    rcases eq_or_lt_of_le (hg i hi) with h0 | hpos
    · rw [← h0, mul_zero, mul_zero]
    · exact mul_le_mul_of_nonneg_right (hb i hi hpos).1 (le_of_lt hpos)
  · rw [div_le_iff₀ hden, ← List.sum_map_mul_left]
    apply List.sum_le_sum
    intro i hi
    rcases eq_or_lt_of_le (hg i hi) with h0 | hpos
    · rw [← h0, mul_zero, mul_zero]
    · exact mul_le_mul_of_nonneg_right (hb i hi hpos).2 (le_of_lt hpos)

theorem weighted_sum_pos (f g : Nat → α) (l : List Nat)
    (hf : ∀ i ∈ l, 0 ≤ f i) (hg : ∀ i ∈ l, 0 ≤ g i) (hex : ∃ i ∈ l, 0 < f i ∧ 0 < g i) :
    0 < (l.map (fun i => f i * g i)).sum / (l.map g).sum := by
  obtain ⟨k, hk, hfk, hgk⟩ := hex
  have hgn : ∀ x ∈ l.map g, 0 ≤ x := by
    intro x hx
    obtain ⟨i, hi, rfl⟩ := List.mem_map.mp hx
    exact hg i hi
  have hfn : ∀ x ∈ l.map (fun i => f i * g i), 0 ≤ x := by
    intro x hx
    obtain ⟨i, hi, rfl⟩ := List.mem_map.mp hx
    exact mul_nonneg (hf i hi) (hg i hi)
  have hden : 0 < (l.map g).sum :=
    lt_of_lt_of_le hgk (List.single_le_sum hgn (g k) (List.mem_map_of_mem g hk))
  have hnum : 0 < (l.map (fun i => f i * g i)).sum :=
    lt_of_lt_of_le (mul_pos hfk hgk)
      (List.single_le_sum hfn (f k * g k) (List.mem_map_of_mem (fun i => f i * g i) hk))
  exact div_pos hnum hden

theorem scoreOf_between (allCritics : List (List α)) (personNum size myIndex : Nat)
    (scorer : ScoreFunc α) (j : Nat)
    (hsim : ∀ idx, idx < personNum → idx ≠ myIndex →
      0 ≤ specSimilarity allCritics size myIndex scorer idx)
    (hex : ∃ idx, idx < personNum ∧ idx ≠ myIndex ∧ 0 < rating allCritics idx j
      ∧ 0 < specSimilarity allCritics size myIndex scorer idx) :
    0 < scoreOf allCritics personNum size myIndex scorer j
      ∧ ∀ lo hi, (∀ idx, idx < personNum → idx ≠ myIndex → 0 < rating allCritics idx j →
            0 < specSimilarity allCritics size myIndex scorer idx →
            lo ≤ rating allCritics idx j ∧ rating allCritics idx j ≤ hi) →
          lo ≤ scoreOf allCritics personNum size myIndex scorer j
            ∧ scoreOf allCritics personNum size myIndex scorer j ≤ hi := by
  have hself : specSimilarity allCritics size myIndex scorer myIndex = 0 := by
    simp [specSimilarity]
  have hsim0 : ∀ idx, idx < personNum →
      0 ≤ specSimilarity allCritics size myIndex scorer idx := by
    intro idx hidx
    by_cases h : idx = myIndex
    · rw [h, hself]
    · exact hsim idx hidx h
  have hg : ∀ i ∈ List.range personNum,
      0 ≤ (if rating allCritics i j ≤ 0 then 0
        else specSimilarity allCritics size myIndex scorer i) := by
    intro i hi
    split_ifs
    · exact le_refl _
    · exact hsim0 i (List.mem_range.mp hi)
  have hf : ∀ i ∈ List.range personNum,
      0 ≤ (if rating allCritics i j ≤ 0 then 0 else rating allCritics i j) := by
    intro i _
    split_ifs with h
    · exact le_refl _
    · exact le_of_lt (not_le.mp h)
  have hpeer : ∀ i, 0 < (if rating allCritics i j ≤ 0 then 0
        else specSimilarity allCritics size myIndex scorer i) →
      i ≠ myIndex ∧ 0 < rating allCritics i j
        ∧ 0 < specSimilarity allCritics size myIndex scorer i := by
    intro i hi
    split_ifs at hi with h
    · exact absurd hi (lt_irrefl _)
    · refine ⟨?_, not_le.mp h, hi⟩
      intro hmy
      rw [hmy, hself] at hi
      exact lt_irrefl _ hi
  obtain ⟨k, hk, hkmy, hkr, hks⟩ := hex
  have hscore : scoreOf allCritics personNum size myIndex scorer j
      = ((List.range personNum).map (fun i =>
          (if rating allCritics i j ≤ 0 then 0 else rating allCritics i j)
            * (if rating allCritics i j ≤ 0 then 0
                else specSimilarity allCritics size myIndex scorer i))).sum
        / ((List.range personNum).map (fun i =>
            if rating allCritics i j ≤ 0 then 0
              else specSimilarity allCritics size myIndex scorer i)).sum := by
    unfold scoreOf maskedCritics maskedRels
    rw [GetWeightedMead_map]
  rw [hscore]
  constructor
  · apply weighted_sum_pos _ _ _ hf hg
    refine ⟨k, List.mem_range.mpr hk, ?_, ?_⟩
    · rw [if_neg (not_le.mpr hkr)]
      exact hkr
    · rw [if_neg (not_le.mpr hkr)]
      exact hks
  · intro lo hi hb
    apply weighted_sum_between _ _ _ lo hi hg
    · intro i hi hpos
      obtain ⟨h1, h2, h3⟩ := hpeer i hpos
      rw [if_neg (not_le.mpr h2)]
      exact hb i (List.mem_range.mp hi) h1 h2 h3
    · refine ⟨k, List.mem_range.mpr hk, ?_⟩
      rw [if_neg (not_le.mpr hkr)]
      exact hks

/-- C17: if every peer similarity is `≥ 0` and a peer who rated item `j` has a
similarity `> 0`, the score of `j` is positive and lies between every lower and
every upper bound (so between the smallest and the largest) of the ratings of
`j` by the peers who rated it with positive similarity.  In particular, for the
Euclidean-derived metric over any non-negative distance, an item rated by at
least one peer scores within the range of its peer ratings, hence `> 0`. -/
theorem C17_score_within_peer_ratings (allCritics : List (List α))
    (personNum size myIndex j : Nat)
    (hlen : allCritics.length = personNum) (hrow : ∀ row ∈ allCritics, row.length = size)
    (hmy : myIndex < personNum) (hj : j < size) :
    (∀ scorer : ScoreFunc α,
        (∀ idx, idx < personNum → idx ≠ myIndex →
          0 ≤ specSimilarity allCritics size myIndex scorer idx) →
        (∃ idx, idx < personNum ∧ idx ≠ myIndex ∧ 0 < rating allCritics idx j
          ∧ 0 < specSimilarity allCritics size myIndex scorer idx) →
        ∃ allRels s, computeAllRels allCritics personNum size myIndex scorer = some allRels
          ∧ itemScore allCritics personNum allRels j = some s
          ∧ 0 < s
          ∧ ∀ lo hi, (∀ idx, idx < personNum → idx ≠ myIndex → 0 < rating allCritics idx j →
                0 < specSimilarity allCritics size myIndex scorer idx →
                lo ≤ rating allCritics idx j ∧ rating allCritics idx j ≤ hi) →
              lo ≤ s ∧ s ≤ hi)
      ∧ (∀ distance : List α → List α → α, (∀ a b, 0 ≤ distance a b) →
        (∃ idx, idx < personNum ∧ idx ≠ myIndex ∧ 0 < rating allCritics idx j) →
        ∃ allRels s,
          computeAllRels allCritics personNum size myIndex (GetEuclideanScoreVec distance)
              = some allRels
          ∧ itemScore allCritics personNum allRels j = some s
          ∧ 0 < s
          ∧ ∀ lo hi, (∀ idx, idx < personNum → idx ≠ myIndex → 0 < rating allCritics idx j →
                lo ≤ rating allCritics idx j ∧ rating allCritics idx j ≤ hi) →
              lo ≤ s ∧ s ≤ hi) := by
  have hgen : ∀ scorer : ScoreFunc α,
      (∀ idx, idx < personNum → idx ≠ myIndex →
        0 ≤ specSimilarity allCritics size myIndex scorer idx) →
      (∃ idx, idx < personNum ∧ idx ≠ myIndex ∧ 0 < rating allCritics idx j
        ∧ 0 < specSimilarity allCritics size myIndex scorer idx) →
      ∃ allRels s, computeAllRels allCritics personNum size myIndex scorer = some allRels
        ∧ itemScore allCritics personNum allRels j = some s
        ∧ 0 < s
        ∧ ∀ lo hi, (∀ idx, idx < personNum → idx ≠ myIndex → 0 < rating allCritics idx j →
              0 < specSimilarity allCritics size myIndex scorer idx →
              lo ≤ rating allCritics idx j ∧ rating allCritics idx j ≤ hi) →
            lo ≤ s ∧ s ≤ hi := by
    intro scorer hsim hex
    obtain ⟨hpos, hbetween⟩ :=
      scoreOf_between allCritics personNum size myIndex scorer j hsim hex
    exact ⟨_, _, computeAllRels_eq allCritics personNum size myIndex scorer hlen hmy,
      itemScore_eq allCritics personNum size myIndex scorer j hlen hrow hj, hpos, hbetween⟩
  refine ⟨hgen, ?_⟩
  intro distance hdist hex
  have hpeer : ∀ idx, idx ≠ myIndex →
      0 < specSimilarity allCritics size myIndex (GetEuclideanScoreVec distance) idx := by
    intro idx hne
    unfold specSimilarity
    rw [if_neg hne]
    unfold GetEuclideanScoreVec GetEuclideanScore
    exact div_pos one_pos (lt_of_lt_of_le one_pos (le_add_of_nonneg_right (hdist _ _)))
  obtain ⟨k, hk, hkmy, hkr⟩ := hex
  obtain ⟨allRels, s, h1, h2, h3, h4⟩ := hgen (GetEuclideanScoreVec distance)
    (fun idx _ hne => le_of_lt (hpeer idx hne)) ⟨k, hk, hkmy, hkr, hpeer k hkmy⟩
  exact ⟨allRels, s, h1, h2, h3, fun lo hi hb =>
    h4 lo hi (fun idx hidx hne hr _ => hb idx hidx hne hr)⟩

/-- Witness of C17: item 2 of the spec's scenario over the reals with the
Euclidean-derived metric; the peer ratings of item 2 are `2` and `1`. -/
theorem C17_score_within_peer_ratings_witness :
    ([[5, 3, 0], [4, 0, 2], [5, 4, 1]] : List (List ℝ)).length = 3
      ∧ (∀ row ∈ ([[5, 3, 0], [4, 0, 2], [5, 4, 1]] : List (List ℝ)), row.length = 3)
      ∧ 0 < 3 ∧ 2 < 3
      ∧ ∃ allRels s,
          computeAllRels ([[5, 3, 0], [4, 0, 2], [5, 4, 1]] : List (List ℝ)) 3 3 0
              (GetEuclideanScoreVec (GetEuclideanDistance Real.sqrt)) = some allRels
          ∧ itemScore ([[5, 3, 0], [4, 0, 2], [5, 4, 1]] : List (List ℝ)) 3 allRels 2 = some s
          ∧ 0 < s ∧ 1 ≤ s ∧ s ≤ 2 := by
  have hrows : ∀ row ∈ ([[5, 3, 0], [4, 0, 2], [5, 4, 1]] : List (List ℝ)), row.length = 3 := by
    simp
  refine ⟨rfl, hrows, by decide, by decide, ?_⟩
  obtain ⟨allRels, s, h1, h2, h3, h4⟩ :=
    (C17_score_within_peer_ratings ([[5, 3, 0], [4, 0, 2], [5, 4, 1]] : List (List ℝ)) 3 3 0 2
      rfl hrows (by decide) (by decide)).2 (GetEuclideanDistance Real.sqrt)
      (fun _ _ => Real.sqrt_nonneg _) ⟨1, by decide, by decide, by norm_num [rating]⟩
  refine ⟨allRels, s, h1, h2, h3, h4 1 2 ?_⟩
  intro idx hidx hne _
  interval_cases idx
  · exact absurd rfl hne
  · norm_num [rating]
  · norm_num [rating]

end Score
